import Mathlib

/-!
# Verification of the batch import engine (`src/db_connector.py`)

Shallow embedding of `PostgresParquetImporter`: the normalizer
(`_normalize_chunk`), the two loading strategies (`_copy_chunk`,
`_values_chunk`), the idempotency/lock controller and the per-file
transaction policy (`import_parquet`), and the orchestrator
(`import_all_parquet_files`).

Modelling conventions:
* A pandas `DataFrame` is column-oriented: a row count plus an association
  list of named columns (pandas itself is a dict of equal-length Series).
* Cell values are `RawValue`: SQL NULL (`null`), a pandas missing sentinel
  (`nan`, covering NaN / NaT / <NA>), integers (standing for the numeric
  values; the claims under study do not depend on float-specific behavior),
  timestamps (`ts`, carrying their epoch label), and strings.
* The PostgreSQL store is `DBState`: the `yellow_taxi_trips` rows, the
  `import_log` ledger and the set of held advisory-lock keys.
* External failures (a batch write raising, the unlock call raising) are
  injected through boolean oracles, standing for store-side nondeterminism.
* Each importer call records an `Event` trace (ledger check, lock
  acquisition/release, batch writes, commits, rollbacks, ledger inserts),
  which the temporal claims are stated against.
-/

namespace GithubDataPipeline

/-- A cell value as it travels through arrow → pandas → the store. -/
inductive RawValue : Type
  | null
  | nan
  | int (n : Int)
  | ts (t : Int)
  | str (s : String)
deriving DecidableEq, Repr

/-- Column-oriented data frame: row count plus named columns
(`pandas.DataFrame` as a dict of equal-length Series). -/
structure DataFrame : Type where
  nrows : Nat
  cols : List (String × List RawValue)
deriving DecidableEq, Repr

/-- First column with the given name (`df[c]` read access). -/
def lookupCol (c : String) : List (String × List RawValue) → Option (List RawValue)
  | [] => none
  | (n, vs) :: rest => if n = c then some vs else lookupCol c rest

/-- `c in df.columns`. -/
def hasCol (c : String) (cols : List (String × List RawValue)) : Bool :=
  (lookupCol c cols).isSome

/-- `df[c] = None` for a column not yet present: appends an all-null column. -/
def DataFrame.assignNull (df : DataFrame) (c : String) : DataFrame :=
  ⟨df.nrows, df.cols ++ [(c, List.replicate df.nrows RawValue.null)]⟩

/-- `for c in src_cols: if c not in df.columns: df[c] = None`
(db_connector.py lines 127-129). -/
def ensureSrcCols (names : List String) (df : DataFrame) : DataFrame :=
  names.foldl (fun d c => if hasCol c d.cols then d else d.assignNull c) df

/-- Replace the values of the (first) column named `c` by their image under
`f` (`df[c] = f(df[c])`). -/
def mapCol (f : RawValue → RawValue) (c : String) :
    List (String × List RawValue) → List (String × List RawValue)
  | [] => []
  | (n, vs) :: rest =>
    if n = c then (n, vs.map f) :: rest else (n, vs) :: mapCol f c rest

/-- Column-wise update on a frame. -/
def DataFrame.applyCol (df : DataFrame) (f : RawValue → RawValue) (c : String) :
    DataFrame :=
  ⟨df.nrows, mapCol f c df.cols⟩

/-- Digit run to its value; `none` when empty or a non-digit appears.
Model of the external libraries' numeric text parsing. -/
def parseNatChars (cs : List Char) : Option Nat :=
  if cs = [] then none
  else if cs.all (fun c => c.isDigit) then
    some (cs.foldl (fun n c => n * 10 + (c.toNat - 48)) 0)
  else none

/-- Signed integer literal parsing over a string's characters. -/
def parseIntStr (s : String) : Option Int :=
  match s.data with
  | '-' :: rest => (parseNatChars rest).map (fun n => -(n : Int))
  | cs => (parseNatChars cs).map (fun n => (n : Int))

/-- `pd.to_datetime(x, errors="coerce")` cell-wise: values that fail to parse
as a timestamp become the missing sentinel NaT. String parsing of the
external library is modelled by `parseIntStr` on the timestamp label. -/
def toDatetimeCoerce : RawValue → RawValue
  | .ts t => .ts t
  | .int n => .ts n
  | .str s => match parseIntStr s with | some t => .ts t | none => .nan
  | .null => .nan
  | .nan => .nan

/-- `pd.to_numeric(x, errors="coerce")` cell-wise: values that fail to parse
as a number become NaN. -/
def toNumericCoerce : RawValue → RawValue
  | .int n => .int n
  | .str s => match parseIntStr s with | some n => .int n | none => .nan
  | .ts _ => .nan
  | .null => .nan
  | .nan => .nan

/-- `.astype("string")` cell-wise: non-missing values get a text
representation, missing values stay missing (<NA>). -/
def astypeString : RawValue → RawValue
  | .str s => .str s
  | .int n => .str (toString n)
  | .ts t => .str (toString t)
  | .null => .nan
  | .nan => .nan

/-- One cell of `df.where(pd.notnull(df), None)`: missing sentinels become
explicit SQL NULL, everything else is kept. -/
def denan : RawValue → RawValue
  | .nan => .null
  | v => v

/-- `df.where(pd.notnull(df), None)` over the whole frame. -/
def whereNotNull (df : DataFrame) : DataFrame :=
  ⟨df.nrows, df.cols.map (fun p => (p.1, p.2.map denan))⟩

/-- `self.src_cols` (db_connector.py lines 44-49). -/
def srcCols : List String :=
  ["VendorID", "tpep_pickup_datetime", "tpep_dropoff_datetime", "passenger_count",
   "trip_distance", "RatecodeID", "store_and_fwd_flag", "PULocationID", "DOLocationID",
   "payment_type", "fare_amount", "extra", "mta_tax", "tip_amount", "tolls_amount",
   "improvement_surcharge", "total_amount", "congestion_surcharge", "Airport_fee"]

/-- The two timestamp columns (db_connector.py line 131). -/
def tsNames : List String := ["tpep_pickup_datetime", "tpep_dropoff_datetime"]

/-- `num_cols` (db_connector.py lines 134-139). -/
def numNames : List String :=
  ["VendorID", "passenger_count", "trip_distance", "RatecodeID",
   "PULocationID", "DOLocationID", "payment_type", "fare_amount", "extra",
   "mta_tax", "tip_amount", "tolls_amount", "improvement_surcharge",
   "total_amount", "congestion_surcharge", "Airport_fee"]

/-- Fetch the columns named in `names`, in that order; `none` (pandas
KeyError) if one is absent. -/
def collectCols : List String → List (String × List RawValue) →
    Option (List (String × List RawValue))
  | [], _ => some []
  | c :: cs, cols => do
    let vs ← lookupCol c cols
    let rest ← collectCols cs cols
    some ((c, vs) :: rest)

/-- `df[self.src_cols]`: reindex to exactly the named columns in order. -/
def selectCols (names : List String) (df : DataFrame) : Except String DataFrame :=
  match collectCols names df.cols with
  | none => .error "KeyError: column not found"
  | some ps => .ok ⟨df.nrows, ps⟩

/-- The column passes of `_normalize_chunk` (db_connector.py lines
127-143): synthesize missing source columns as null, coerce the two
timestamp columns, the sixteen numeric columns and the text flag. -/
def coercePipeline (df : DataFrame) : DataFrame :=
  let d1 := ensureSrcCols srcCols df
  let d2 := tsNames.foldl (fun d c => d.applyCol toDatetimeCoerce c) d1
  let d3 := numNames.foldl (fun d c => d.applyCol toNumericCoerce c) d2
  d3.applyCol astypeString "store_and_fwd_flag"

/-- `PostgresParquetImporter._normalize_chunk` (db_connector.py lines
125-148): the coercion passes, then reindex to `src_cols` order
(`df[self.src_cols]`, a KeyError — the error case — if a column is
absent), then replace missing sentinels by explicit nulls. -/
def normalizeChunk (df : DataFrame) : Except String DataFrame :=
  Except.map whereNotNull (selectCols srcCols (coercePipeline df))

/-- The values of column `c`, an all-null column if absent (the shape
`_normalize_chunk` gives a missing column before coercion). -/
def colOrNull (df : DataFrame) (c : String) : List RawValue :=
  (lookupCol c df.cols).getD (List.replicate df.nrows RawValue.null)

/-- Which coercion `_normalize_chunk` applies to source column `c`. -/
def classCoerce (c : String) : RawValue → RawValue :=
  if c ∈ tsNames then toDatetimeCoerce
  else if c ∈ numNames then toNumericCoerce
  else astypeString

/-- The end-to-end cell transformation of `_normalize_chunk` on column `c`. -/
def normCellFn (c : String) (v : RawValue) : RawValue :=
  denan (classCoerce c v)

theorem lookupCol_append (c : String) (xs ys : List (String × List RawValue)) :
    lookupCol c (xs ++ ys) =
      match lookupCol c xs with
      | some vs => some vs
      | none => lookupCol c ys := by
  induction xs with
  | nil => simp [lookupCol]
  | cons p rest ih =>
    obtain ⟨n, vs⟩ := p
    by_cases h : n = c <;> simp [lookupCol, h, ih]

theorem lookupCol_mapCol_self (f : RawValue → RawValue) (c : String)
    (cols : List (String × List RawValue)) :
    lookupCol c (mapCol f c cols) = (lookupCol c cols).map (List.map f) := by
  induction cols with
  | nil => simp [lookupCol, mapCol]
  | cons p rest ih =>
    obtain ⟨n, vs⟩ := p
    by_cases h : n = c <;> simp [lookupCol, mapCol, h, ih]

theorem lookupCol_mapCol_other (f : RawValue → RawValue) (c c' : String)
    (hcc : c' ≠ c) (cols : List (String × List RawValue)) :
    lookupCol c' (mapCol f c cols) = lookupCol c' cols := by
  induction cols with
  | nil => simp [lookupCol, mapCol]
  | cons p rest ih =>
    obtain ⟨n, vs⟩ := p
    by_cases h : n = c
    · subst h
      have : ¬ n = c' := fun hc => hcc hc.symm
      simp [lookupCol, mapCol, this]
    · by_cases h' : n = c' <;> simp [lookupCol, mapCol, h, h', ih, hcc]

/-- What a `lookupCol` returns after the missing-column pass: the original
column if present, an all-null column if its name is in `names`. -/
def ensLookup (names : List String) (df : DataFrame) (c : String) :
    Option (List RawValue) :=
  match lookupCol c df.cols with
  | some vs => some vs
  | none =>
    if c ∈ names then some (List.replicate df.nrows RawValue.null) else none

theorem ensureSrcCols_nrows (names : List String) (df : DataFrame) :
    (ensureSrcCols names df).nrows = df.nrows := by
  induction names generalizing df with
  | nil => rfl
  | cons a rest ih =>
    simp only [ensureSrcCols, List.foldl_cons]
    by_cases h : hasCol a df.cols = true
    · simpa [ensureSrcCols, h] using ih df
    · simpa [ensureSrcCols, h] using ih (df.assignNull a)

theorem lookupCol_ensureSrcCols (names : List String) (df : DataFrame)
    (c : String) :
    lookupCol c (ensureSrcCols names df).cols = ensLookup names df c := by
  induction names generalizing df with
  | nil =>
    simp only [ensureSrcCols, List.foldl_nil, ensLookup]
    cases lookupCol c df.cols <;> simp
  | cons a rest ih =>
    simp only [ensureSrcCols, List.foldl_cons]
    by_cases ha : hasCol a df.cols = true
    · have hstep : (if hasCol a df.cols = true then df else df.assignNull a) = df := by
        simp [ha]
      rw [hstep]
      have := ih df
      simp only [ensureSrcCols] at this
      rw [this]
      unfold ensLookup
      cases hvc : lookupCol c df.cols with
      | some vs => simp
      | none =>
        by_cases hcr : c ∈ rest
        · simp [hcr, List.mem_cons, Or.inr hcr]
        · by_cases hca : c = a
          · subst hca
            unfold hasCol at ha
            rw [hvc] at ha
            simp at ha
          · simp [hcr, hca]
    · have hstep : (if hasCol a df.cols = true then df else df.assignNull a)
          = df.assignNull a := by simp [ha]
      rw [hstep]
      have := ih (df.assignNull a)
      simp only [ensureSrcCols] at this
      rw [this]
      unfold ensLookup DataFrame.assignNull
      simp only
      rw [lookupCol_append]
      cases hvc : lookupCol c df.cols with
      | some vs => simp
      | none =>
        by_cases hca : c = a
        · subst hca
          simp [lookupCol]
        · have : lookupCol c [(a, List.replicate df.nrows RawValue.null)] = none := by
            simp [lookupCol, Ne.symm hca]
          simp only [this]
          by_cases hcr : c ∈ rest
          · simp [hcr, List.mem_cons]
          · simp [hcr, hca, Ne.symm hca]

theorem applyCol_fold_nrows (f : RawValue → RawValue) (ns : List String)
    (df : DataFrame) :
    (ns.foldl (fun d c => d.applyCol f c) df).nrows = df.nrows := by
  induction ns generalizing df with
  | nil => rfl
  | cons a rest ih => simpa [DataFrame.applyCol] using ih (df.applyCol f a)

theorem lookupCol_applyCol_fold (f : RawValue → RawValue) (ns : List String)
    (hnd : ns.Nodup) (df : DataFrame) (c : String) :
    lookupCol c (ns.foldl (fun d n => d.applyCol f n) df).cols =
      if c ∈ ns then (lookupCol c df.cols).map (List.map f)
      else lookupCol c df.cols := by
  induction ns generalizing df with
  | nil => simp
  | cons a rest ih =>
    have hnd' : rest.Nodup := hnd.of_cons
    have hanr : a ∉ rest := by
      intro h
      exact (List.nodup_cons.mp hnd).1 h
    simp only [List.foldl_cons]
    rw [ih hnd' (df.applyCol f a)]
    by_cases hca : c = a
    · subst hca
      simp only [DataFrame.applyCol]
      rw [lookupCol_mapCol_self]
      simp [hanr, List.mem_cons]
    · simp only [DataFrame.applyCol]
      rw [lookupCol_mapCol_other f a c (fun h => hca h)]
      by_cases hcr : c ∈ rest <;> simp [hcr, hca]

theorem collectCols_eq (names : List String)
    (cols : List (String × List RawValue))
    (h : ∀ c ∈ names, (lookupCol c cols).isSome) :
    collectCols names cols =
      some (names.map (fun c => (c, (lookupCol c cols).getD []))) := by
  induction names with
  | nil => simp [collectCols]
  | cons a rest ih =>
    have ha : (lookupCol a cols).isSome := h a (List.mem_cons_self a rest)
    obtain ⟨vs, hvs⟩ := Option.isSome_iff_exists.mp ha
    have hrest := ih (fun c hc => h c (List.mem_cons_of_mem a hc))
    simp [collectCols, hvs, hrest]

theorem lookupCol_map_mk (names : List String) (g : String → List RawValue)
    (c : String) :
    lookupCol c (names.map (fun n => (n, g n))) =
      if c ∈ names then some (g c) else none := by
  induction names with
  | nil => simp [lookupCol]
  | cons a rest ih =>
    by_cases h : a = c
    · subst h
      simp [lookupCol]
    · have : ¬ c = a := fun hc => h hc.symm
      simp [lookupCol, h, ih, this]

theorem tsNames_nodup : tsNames.Nodup := by
  simp [tsNames]

theorem numNames_nodup : numNames.Nodup := by
  simp [numNames]

theorem srcCols_class : ∀ x ∈ srcCols, x ∈ tsNames ∨ (¬ x ∈ tsNames ∧ x ∈ numNames)
    ∨ (¬ x ∈ tsNames ∧ ¬ x ∈ numNames ∧ x = "store_and_fwd_flag") := by
  intro x hx
  fin_cases hx <;> simp [tsNames, numNames]

theorem tsNames_not_num : ∀ x ∈ tsNames, ¬ x ∈ numNames := by
  intro x hx
  fin_cases hx <;> simp [numNames]

theorem tsNames_not_flag : ∀ x ∈ tsNames, ¬ x = "store_and_fwd_flag" := by
  intro x hx
  fin_cases hx <;> simp

theorem numNames_not_flag : ∀ x ∈ numNames, ¬ x = "store_and_fwd_flag" := by
  intro x hx
  fin_cases hx <;> simp

theorem applyCol_nrows (df : DataFrame) (f : RawValue → RawValue) (c : String) :
    (df.applyCol f c).nrows = df.nrows := rfl

theorem coercePipeline_nrows (df : DataFrame) :
    (coercePipeline df).nrows = df.nrows := by
  simp only [coercePipeline, applyCol_nrows, applyCol_fold_nrows,
    ensureSrcCols_nrows]

/-- After the coercion passes, every canonical column is present and holds
the original cells (null if the column was absent) pushed through the
coercion of that column's class. -/
theorem lookupCol_coercePipeline (df : DataFrame) (c : String)
    (hc : c ∈ srcCols) :
    lookupCol c (coercePipeline df).cols
      = some ((colOrNull df c).map (classCoerce c)) := by
  simp only [coercePipeline]
  set d1 := ensureSrcCols srcCols df with hd1
  set d2 := tsNames.foldl (fun d c => d.applyCol toDatetimeCoerce c) d1 with hd2
  set d3 := numNames.foldl (fun d c => d.applyCol toNumericCoerce c) d2 with hd3
  have h1 : lookupCol c d1.cols = some (colOrNull df c) := by
    rw [hd1, lookupCol_ensureSrcCols]
    unfold ensLookup colOrNull
    cases lookupCol c df.cols with
    | some vs => simp
    | none => simp [hc]
  rcases srcCols_class c hc with hts | ⟨hnts, hnum⟩ | ⟨hnts, hnnum, hflag⟩
  · have l2 : lookupCol c d2.cols
        = some ((colOrNull df c).map toDatetimeCoerce) := by
      rw [hd2, lookupCol_applyCol_fold _ _ tsNames_nodup]
      simp [hts, h1]
    have l3 : lookupCol c d3.cols = lookupCol c d2.cols := by
      rw [hd3, lookupCol_applyCol_fold _ _ numNames_nodup]
      simp [tsNames_not_num c hts]
    have l4 : lookupCol c (d3.applyCol astypeString "store_and_fwd_flag").cols
        = lookupCol c d3.cols := by
      simp only [DataFrame.applyCol]
      exact lookupCol_mapCol_other _ _ _ (tsNames_not_flag c hts) _
    rw [l4, l3, l2]
    have : classCoerce c = toDatetimeCoerce := by simp [classCoerce, hts]
    rw [this]
  · have l2 : lookupCol c d2.cols = some (colOrNull df c) := by
      rw [hd2, lookupCol_applyCol_fold _ _ tsNames_nodup]
      simp [hnts, h1]
    have l3 : lookupCol c d3.cols
        = some ((colOrNull df c).map toNumericCoerce) := by
      rw [hd3, lookupCol_applyCol_fold _ _ numNames_nodup]
      simp [hnum, l2]
    have l4 : lookupCol c (d3.applyCol astypeString "store_and_fwd_flag").cols
        = lookupCol c d3.cols := by
      simp only [DataFrame.applyCol]
      exact lookupCol_mapCol_other _ _ _ (numNames_not_flag c hnum) _
    rw [l4, l3]
    have : classCoerce c = toNumericCoerce := by simp [classCoerce, hnts, hnum]
    rw [this]
  · have l2 : lookupCol c d2.cols = some (colOrNull df c) := by
      rw [hd2, lookupCol_applyCol_fold _ _ tsNames_nodup]
      simp [hnts, h1]
    have l3 : lookupCol c d3.cols = some (colOrNull df c) := by
      rw [hd3, lookupCol_applyCol_fold _ _ numNames_nodup]
      simp [hnnum, l2]
    have l4 : lookupCol c (d3.applyCol astypeString "store_and_fwd_flag").cols
        = some ((colOrNull df c).map astypeString) := by
      simp only [DataFrame.applyCol]
      subst hflag
      rw [lookupCol_mapCol_self, l3]
      rfl
    rw [l4]
    have : classCoerce c = astypeString := by simp [classCoerce, hnts, hnnum]
    rw [this]

/-- Master characterization of `_normalize_chunk`: it never fails, and the
result is exactly the canonical 19 columns in order, each cell being the
original cell (null if the column was absent) pushed through the coercion
of that column's class and the final missing-to-null pass. -/
theorem normalizeChunk_eq (df : DataFrame) :
    normalizeChunk df =
      Except.ok ⟨df.nrows,
        srcCols.map (fun c => (c, (colOrNull df c).map (normCellFn c)))⟩ := by
  have hsel : selectCols srcCols (coercePipeline df)
      = .ok ⟨(coercePipeline df).nrows,
          srcCols.map (fun c => (c, (colOrNull df c).map (classCoerce c)))⟩ := by
    unfold selectCols
    rw [collectCols_eq srcCols (coercePipeline df).cols
      (fun c hc => by rw [lookupCol_coercePipeline df c hc]; rfl)]
    have : (srcCols.map (fun c => (c, (lookupCol c (coercePipeline df).cols).getD [])))
        = srcCols.map (fun c => (c, (colOrNull df c).map (classCoerce c))) := by
      apply List.map_congr_left
      intro c hc
      rw [lookupCol_coercePipeline df c hc]
      rfl
    rw [this]
  simp only [normalizeChunk, hsel, Except.map, whereNotNull, List.map_map,
    coercePipeline_nrows]
  refine congrArg Except.ok (congrArg (DataFrame.mk df.nrows) ?_)
  apply List.map_congr_left
  intro c _
  simp [Function.comp, List.map_map, normCellFn]

/-- Materialize the rows of a frame in order (how both `df.to_csv` and
`df.itertuples` iterate a frame). -/
def rowsOf (df : DataFrame) : List (List RawValue) :=
  (List.range df.nrows).map (fun i => df.cols.map (fun p => p.2.getD i RawValue.null))

/-- The three storage classes of the target table's columns
(`CREATE TABLE yellow_taxi_trips`, db_connector.py lines 77-100):
BIGINT / DOUBLE PRECISION, TIMESTAMP, TEXT. -/
inductive ColClass : Type
  | numC
  | tsC
  | textC
deriving DecidableEq, Repr

/-- Class of each canonical column, matching the declared table schema. -/
def classOf (c : String) : ColClass :=
  if c ∈ tsNames then .tsC else if c ∈ numNames then .numC else .textC

/-- The db column classes in `db_cols` order (same order as `src_cols`). -/
def colClasses : List ColClass := srcCols.map classOf

/-- One field of the CSV stream produced by
`df.to_csv(index=False, header=False)` (QUOTE_MINIMAL). A missing value is
written as a zero-width field and — crucially — so is the empty string,
since QUOTE_MINIMAL does not quote it: the two are indistinguishable on the
wire. A non-empty text field is quoted exactly when it contains a
delimiter, a quote or a line break. Numeric and timestamp literals are
carried by value: their decimal/timestamp text round-trips losslessly, so
the wire token records the value itself. -/
inductive CsvField : Type
  | blank
  | litInt (n : Int)
  | litTime (t : Int)
  | raw (s : String)
  | quoted (s : String)
deriving DecidableEq, Repr

/-- QUOTE_MINIMAL quoting condition of the csv writer. -/
def needsQuote (s : String) : Bool :=
  s.contains ',' || s.contains '"' || s.contains '\n' || s.contains '\r'

/-- How `df.to_csv` writes one cell. -/
def encodeField : RawValue → CsvField
  | .null => .blank
  | .nan => .blank
  | .int n => .litInt n
  | .ts t => .litTime t
  | .str s =>
    if s = "" then .blank else if needsQuote s then .quoted s else .raw s

/-- How `COPY … FROM STDIN WITH (FORMAT CSV)` reads one field into a column
of the given class: a zero-width unquoted field is NULL; any other field is
cast to the column's type, raising on a malformed literal. -/
def decodeField (cls : ColClass) : CsvField → Except String RawValue
  | .blank => .ok .null
  | .litInt n =>
    match cls with
    | .numC => .ok (.int n)
    | .tsC => .ok (.ts n)
    | .textC => .ok (.str (toString n))
  | .litTime t =>
    match cls with
    | .tsC => .ok (.ts t)
    | .numC => .ok (.int t)
    | .textC => .ok (.str (toString t))
  | .raw s =>
    match cls with
    | .textC => .ok (.str s)
    | _ => .error "invalid input syntax"
  | .quoted s =>
    match cls with
    | .textC => .ok (.str s)
    | _ => .error "invalid input syntax"

/-- Read one CSV line into one stored row, column class by column class. -/
def decodeRow : List ColClass → List CsvField → Except String (List RawValue)
  | [], [] => .ok []
  | cls :: cs, f :: fs =>
    match decodeField cls f with
    | .error e => .error e
    | .ok v =>
      match decodeRow cs fs with
      | .error e => .error e
      | .ok vs => .ok (v :: vs)
  | _, _ => .error "malformed copy data"

/-- The stored rows that result from streaming the given rows through the
CSV writer and COPY reader. -/
def copyRows : List (List RawValue) → Except String (List (List RawValue))
  | [] => .ok []
  | r :: rs =>
    match decodeRow colClasses (r.map encodeField) with
    | .error e => .error e
    | .ok r' =>
      match copyRows rs with
      | .error e => .error e
      | .ok rs' => .ok (r' :: rs')

/-- `PostgresParquetImporter._copy_chunk` (db_connector.py lines 150-159):
serialize the batch to CSV (`df.to_csv(index=False, header=False)`) and
stream it through COPY against the quoted db column list. Modelled as the
rows the store ends up holding. -/
def copyChunk (df : DataFrame) : Except String (List (List RawValue)) :=
  copyRows (rowsOf df)

/-- `PostgresParquetImporter._values_chunk` (db_connector.py lines
161-169): one multi-row parameterized INSERT over `df.itertuples`; the
adapted parameters store every cell as-is (None ↦ NULL). The page size
only affects transport batching, never stored values. -/
def valuesChunk (df : DataFrame) : List (List RawValue) :=
  rowsOf df

/-- The value shapes a column of the given class can hold after
normalization. -/
def cellShape (cls : ColClass) (v : RawValue) : Prop :=
  match cls with
  | .numC => v = .null ∨ ∃ n, v = .int n
  | .tsC => v = .null ∨ ∃ t, v = .ts t
  | .textC => v = .null ∨ ∃ s, v = .str s

theorem cellShape_null (cls : ColClass) : cellShape cls RawValue.null := by
  cases cls <;> simp [cellShape]

/-- Normalized cells are shaped for their column's storage class. -/
theorem normCellFn_shape (c : String) (v : RawValue) :
    cellShape (classOf c) (normCellFn c v) := by
  unfold classOf normCellFn classCoerce
  by_cases hts : c ∈ tsNames
  · simp only [hts, if_true]
    cases v with
    | null => simp [toDatetimeCoerce, denan, cellShape]
    | nan => simp [toDatetimeCoerce, denan, cellShape]
    | int n => simp [toDatetimeCoerce, denan, cellShape]
    | ts t => simp [toDatetimeCoerce, denan, cellShape]
    | str s =>
      cases h : parseIntStr s <;> simp [toDatetimeCoerce, denan, cellShape, h]
  · by_cases hnum : c ∈ numNames
    · simp only [hts, hnum, if_false, if_true]
      cases v with
      | null => simp [toNumericCoerce, denan, cellShape]
      | nan => simp [toNumericCoerce, denan, cellShape]
      | int n => simp [toNumericCoerce, denan, cellShape]
      | ts t => simp [toNumericCoerce, denan, cellShape]
      | str s =>
        cases h : parseIntStr s <;> simp [toNumericCoerce, denan, cellShape, h]
    · simp only [hts, hnum, if_false]
      cases v <;> simp [astypeString, denan, cellShape]

/-- What the CSV/COPY transport stores for one (normalized) cell: the cell
itself, except that an empty text value collapses to NULL. -/
def copyTransport : RawValue → RawValue :=
  fun v => if v = .str "" then .null else v

theorem decodeField_encodeField (cls : ColClass) (v : RawValue)
    (h : cellShape cls v) :
    decodeField cls (encodeField v) = .ok (copyTransport v) := by
  cases cls with
  | numC =>
    rcases h with rfl | ⟨n, rfl⟩ <;> simp [encodeField, decodeField, copyTransport]
  | tsC =>
    rcases h with rfl | ⟨t, rfl⟩ <;> simp [encodeField, decodeField, copyTransport]
  | textC =>
    rcases h with rfl | ⟨s, rfl⟩
    · simp [encodeField, decodeField, copyTransport]
    · by_cases hs : s = ""
      · subst hs
        simp [encodeField, decodeField, copyTransport]
      · by_cases hq : needsQuote s = true <;>
          simp [encodeField, decodeField, copyTransport, hs, hq]

theorem decodeRow_map (l : List String) (g : String → RawValue)
    (h : ∀ c ∈ l, cellShape (classOf c) (g c)) :
    decodeRow (l.map classOf) ((l.map g).map encodeField)
      = .ok ((l.map g).map copyTransport) := by
  induction l with
  | nil => simp [decodeRow]
  | cons c cs ih =>
    have hc := h c (List.mem_cons_self c cs)
    have hrest := ih (fun x hx => h x (List.mem_cons_of_mem c hx))
    simp only [List.map_cons, decodeRow,
      decodeField_encodeField (classOf c) (g c) hc, hrest]

/-- A row materialized from a frame whose columns are `srcCols.map (c, F c)`
is the list of per-column cells. -/
theorem rowsOf_mapped (F : String → List RawValue) (i : Nat) :
    (srcCols.map (fun c => (c, F c))).map (fun p => p.2.getD i RawValue.null)
      = srcCols.map (fun c => (F c).getD i RawValue.null) := by
  rw [List.map_map]
  rfl

theorem getD_map_pred {P : RawValue → Prop} (f : RawValue → RawValue)
    (hf : ∀ v, P (f v)) (hd : P RawValue.null) :
    ∀ (l : List RawValue) (i : Nat), P ((l.map f).getD i RawValue.null)
  | [], _ => by simpa [List.getD] using hd
  | v :: l, 0 => by simpa using hf v
  | v :: l, i + 1 => by simpa using getD_map_pred f hf hd l i

theorem getD_mem_or {α : Type} (l : List α) (i : Nat) (d : α) :
    l.getD i d ∈ l ∨ l.getD i d = d := by
  induction l generalizing i with
  | nil => simp [List.getD]
  | cons a l ih =>
    cases i with
    | zero => simp
    | succ i =>
      have h2 : (a :: l).getD (i + 1) d = l.getD i d := rfl
      rw [h2]
      rcases ih i with h | h
      · exact Or.inl (List.mem_cons_of_mem a h)
      · exact Or.inr h

/-- Every row materialized from a normalized frame is `srcCols`-indexed,
class-shaped cell by cell, and each cell is a value of its column (or a
padding null). -/
theorem rowsOf_normalizeChunk (df norm : DataFrame)
    (h : normalizeChunk df = .ok norm) (r : List RawValue)
    (hr : r ∈ rowsOf norm) :
    ∃ g : String → RawValue, r = srcCols.map g
      ∧ (∀ c ∈ srcCols, cellShape (classOf c) (g c))
      ∧ (∀ c ∈ srcCols,
          g c ∈ (lookupCol c norm.cols).getD [] ∨ g c = RawValue.null) := by
  rw [normalizeChunk_eq] at h
  obtain rfl : norm = ⟨df.nrows,
      srcCols.map (fun c => (c, (colOrNull df c).map (normCellFn c)))⟩ :=
    (Except.ok.injEq _ _).mp h.symm
  simp only [rowsOf, List.mem_map, List.mem_range] at hr
  obtain ⟨i, _, rfl⟩ := hr
  refine ⟨fun c => (((colOrNull df c).map (normCellFn c))).getD i RawValue.null,
    ?_, ?_, ?_⟩
  · exact rowsOf_mapped _ i
  · intro c _
    exact getD_map_pred (normCellFn c) (normCellFn_shape c)
      (cellShape_null (classOf c)) (colOrNull df c) i
  · intro c hc
    have hl : lookupCol c
        (srcCols.map (fun c => (c, (colOrNull df c).map (normCellFn c))))
        = some ((colOrNull df c).map (normCellFn c)) := by
      rw [lookupCol_map_mk]
      simp [hc]
    simp only [hl, Option.getD_some]
    exact getD_mem_or _ i _

theorem copyRows_of_shaped (rs : List (List RawValue))
    (h : ∀ r ∈ rs, ∃ g : String → RawValue, r = srcCols.map g
      ∧ (∀ c ∈ srcCols, cellShape (classOf c) (g c))) :
    copyRows rs = .ok (rs.map (List.map copyTransport)) := by
  induction rs with
  | nil => simp [copyRows]
  | cons r rs ih =>
    obtain ⟨g, rfl, hg⟩ := h r (List.mem_cons_self r rs)
    have hrow : decodeRow colClasses ((srcCols.map g).map encodeField)
        = .ok ((srcCols.map g).map copyTransport) := by
      rw [show colClasses = srcCols.map classOf from rfl]
      exact decodeRow_map srcCols g hg
    have hrest := ih (fun x hx => h x (List.mem_cons_of_mem _ hx))
    simp only [List.map_cons, copyRows, hrow, hrest]

/-- On the rows of a normalized frame, the COPY stream never fails and
stores each row cell-wise through `copyTransport`. -/
theorem copyChunk_normalizeChunk (df norm : DataFrame)
    (h : normalizeChunk df = .ok norm) :
    copyChunk norm = .ok ((rowsOf norm).map (List.map copyTransport)) :=
  copyRows_of_shaped (rowsOf norm)
    (fun r hr =>
      match rowsOf_normalizeChunk df norm h r hr with
      | ⟨g, h1, h2, _⟩ => ⟨g, h1, h2⟩)

/-- `pf.iter_batches(batch_size=B)`: the file's rows in storage order, cut
into consecutive batches of at most `B` rows. -/
def chunks {α : Type} (B : Nat) : List α → List (List α)
  | [] => []
  | a :: as =>
    if _h : B = 0 then [a :: as]
    else (a :: as).take B :: chunks B ((a :: as).drop B)
termination_by l => l.length
decreasing_by
  simp only [List.length_drop, List.length_cons]
  omega

/-- The loading strategy selector (`method: "copy" | "values"`). -/
inductive Method : Type
  | copy
  | values
deriving DecidableEq, Repr

/-- The importer configuration (constructor arguments of
`PostgresParquetImporter` that the import path reads). -/
structure Importer : Type where
  batch_size : Nat
  method : Method
  dry_run : Bool
deriving DecidableEq, Repr

/-- The PostgreSQL store as the importer sees it: the trip table (rows in
insertion order), the `import_log` ledger (file name, rows_imported, in
insertion order) and the set of held advisory-lock keys. -/
structure DBState : Type where
  trips : List (List RawValue)
  ledger : List (String × Nat)
  locks : List Nat
deriving DecidableEq, Repr

/-- Model of `hashtext(file_name)`: a deterministic hash of the name. The
claims depend only on its determinism, not on the concrete mixing. -/
def hashtext (s : String) : Nat :=
  s.data.foldl (fun h c => (h * 31 + c.toNat) % 2 ^ 31) 7

/-- `PostgresParquetImporter.is_file_imported` (db_connector.py lines
111-113): `SELECT 1 FROM import_log WHERE file_name = %s` fetched a row. -/
def is_file_imported (s : DBState) (file_name : String) : Bool :=
  s.ledger.any (fun e => e.1 == file_name)

/-- The observable actions of one importer call, in order. -/
inductive Event : Type
  | checkLedger (name : String) (hit : Bool)
  | tryLock (key : Nat) (ok : Bool)
  | readBatch (bno : Nat)
  | write (n : Nat)
  | commit
  | rollback
  | insertLedger (name : String) (rows : Nat)
  | unlockAttempt (key : Nat)
deriving DecidableEq, Repr

/-- A path in the scanned directory tree; only its final component (the
file name, `file_path.name`) is ever sent to the store. -/
structure FPath : Type where
  parts : List String
deriving DecidableEq, Repr

def FPath.name (p : FPath) : String := p.parts.getLastD ""

/-- One parquet file: its path and its contents (column names plus rows in
storage order). -/
structure PFile : Type where
  path : FPath
  cols : List String
  rows : List (List RawValue)
deriving DecidableEq, Repr

/-- `batch.to_pandas()`: a row chunk with the file's column names becomes a
column-oriented frame. -/
def toDF (cols : List String) (rows : List (List RawValue)) : DataFrame :=
  ⟨rows.length,
   cols.enum.map (fun p => (p.2, rows.map (fun r => r.getD p.1 RawValue.null)))⟩

/-- The write of one normalized batch, by strategy (db_connector.py lines
203-206). -/
def loadChunk (m : Method) (df : DataFrame) : Except String (List (List RawValue)) :=
  match m with
  | .copy => copyChunk df
  | .values => .ok (valuesChunk df)

/-- The rows a successful batch write stores (`[]` in the unreachable
failure case — `loadChunk` succeeds on every normalized batch). -/
def storedRows (m : Method) (df : DataFrame) : List (List RawValue) :=
  match loadChunk m df with
  | .ok rs => rs
  | .error _ => []

/-- The normalized frame of one raw chunk (total by `normalizeChunk_eq`;
the error default is unreachable). -/
def normDF (cols : List String) (rows : List (List RawValue)) : DataFrame :=
  match normalizeChunk (toDF cols rows) with
  | .ok d => d
  | .error _ => ⟨0, []⟩

/-- Prefix the trace of a loop outcome. -/
def prependE (evs : List Event) :
    Except (DBState × List Event) (DBState × Nat × List Event) →
    Except (DBState × List Event) (DBState × Nat × List Event)
  | .error (s, t) => .error (s, evs ++ t)
  | .ok (s, n, t) => .ok (s, n, evs ++ t)

/-- `self._normalize_chunk(batch.to_pandas())` for a file with the given
column names: the per-batch conversion the loop applies. -/
def normAt (cols : List String) (rows : List (List RawValue)) :
    Except String DataFrame :=
  normalizeChunk (toDF cols rows)

/-- The batch loop of `import_parquet` (db_connector.py lines 192-216):
convert and normalize each batch (through `normF`, the file's
`normAt cols`), skip empty frames, in dry-run log and stop after the first
batch, otherwise write and commit it. An exception from a batch write
(injected by the `loadFails` oracle, or a normalize/decode error)
propagates to the `except` handler, which rolls back the in-flight
transaction: the `.error` outcome carries the state as of the last commit.
Arguments after `normF`: remaining batches, batches already read, store
state, `total_rows` so far. -/
def runBatches (imp : Importer) (loadFails : Nat → Bool)
    (normF : List (List RawValue) → Except String DataFrame) :
    List (List (List RawValue)) → Nat → DBState → Nat →
    Except (DBState × List Event) (DBState × Nat × List Event)
  | [], _, s, total => .ok (s, total, [])
  | rows :: rest, done, s, total =>
    let bno := done + 1
    match normF rows with
    | .error _ => .error (s, [.readBatch bno, .rollback])
    | .ok df =>
      if df.nrows = 0 then
        prependE [.readBatch bno] (runBatches imp loadFails normF rest bno s total)
      else if imp.dry_run then
        .ok (s, total + df.nrows, [.readBatch bno])
      else if loadFails bno then
        .error (s, [.readBatch bno, .rollback])
      else
        match loadChunk imp.method df with
        | .error _ => .error (s, [.readBatch bno, .rollback])
        | .ok newRows =>
          prependE [.readBatch bno, .write df.nrows, .commit]
            (runBatches imp loadFails normF rest bno
              { s with trips := s.trips ++ newRows } (total + df.nrows))

/-- `PostgresParquetImporter.import_parquet` (db_connector.py lines
171-237): skip if the ledger already names the file; skip if the advisory
lock keyed by `hashtext(file_name)` is already held; otherwise acquire the
lock, run the batch loop, on success (and not dry-run) insert one ledger
row and commit, on an exception roll back and return `False`; in all
acquired cases finally attempt to release the lock, swallowing a release
failure (injected by the `unlockFails` oracle). Returns the `bool` result,
the new store state and the event trace. -/
def importParquet (imp : Importer) (loadFails : Nat → Bool)
    (unlockFails : Bool) (file : PFile) (s : DBState) :
    Bool × DBState × List Event :=
  let file_name := file.path.name
  if is_file_imported s file_name then
    (false, s, [.checkLedger file_name true])
  else
    let key := hashtext file_name
    if s.locks.contains key then
      (false, s, [.checkLedger file_name false, .tryLock key false])
    else
      let s1 : DBState := { s with locks := key :: s.locks }
      let body : Bool × DBState × List Event :=
        match runBatches imp loadFails (normAt file.cols)
            (chunks imp.batch_size file.rows) 0 s1 0 with
        | .error (s2, t) => (false, s2, t)
        | .ok (s2, total, t) =>
          if imp.dry_run then (true, s2, t)
          else (true, { s2 with ledger := s2.ledger ++ [(file_name, total)] },
                t ++ [.insertLedger file_name total, .commit])
      let s3 := if unlockFails then body.2.1
                else { body.2.1 with locks := body.2.1.locks.erase key }
      (body.1, s3,
        [.checkLedger file_name false, .tryLock key true]
          ++ body.2.2 ++ [.unlockAttempt key])

/-- `PostgresParquetImporter.import_all_parquet_files` (db_connector.py
lines 239-254): walk the (already sorted) discovered files in order,
invoke `import_parquet` on each, and count the `True` results. The
failure oracles are indexed by position in the file list. -/
def importAll (imp : Importer) (loadFailsAt : Nat → Nat → Bool)
    (unlockFailsAt : Nat → Bool) :
    List PFile → Nat → DBState → Nat × DBState × List Event
  | [], _, s => (0, s, [])
  | f :: rest, k, s =>
    let one := importParquet imp (loadFailsAt k) (unlockFailsAt k) f s
    let more := importAll imp loadFailsAt unlockFailsAt rest (k + 1) one.2.1
    ((if one.1 then 1 else 0) + more.1, more.2.1, one.2.2 ++ more.2.2)

/-- Store state of a loop outcome. -/
def stateOf : Except (DBState × List Event) (DBState × Nat × List Event) → DBState
  | .error (s, _) => s
  | .ok (s, _, _) => s

/-- Trace of a loop outcome. -/
def traceOf : Except (DBState × List Event) (DBState × Nat × List Event) → List Event
  | .error (_, t) => t
  | .ok (_, _, t) => t

/-- The events the batch loop can emit. -/
def isLoopEv : Event → Bool
  | .readBatch _ => true
  | .write _ => true
  | .commit => true
  | .rollback => true
  | _ => false

/-- The sizes of the batch writes recorded in a trace, in order. -/
def writeSizes (t : List Event) : List Nat :=
  t.filterMap (fun e => match e with | .write n => some n | _ => none)

theorem stateOf_prependE (evs : List Event)
    (r : Except (DBState × List Event) (DBState × Nat × List Event)) :
    stateOf (prependE evs r) = stateOf r := by
  rcases r with ⟨s, t⟩ | ⟨s, n, t⟩ <;> rfl

theorem traceOf_prependE (evs : List Event)
    (r : Except (DBState × List Event) (DBState × Nat × List Event)) :
    traceOf (prependE evs r) = evs ++ traceOf r := by
  rcases r with ⟨s, t⟩ | ⟨s, n, t⟩ <;> rfl

theorem toDF_nrows (cols : List String) (rows : List (List RawValue)) :
    (toDF cols rows).nrows = rows.length := rfl

theorem normDF_eq (cols : List String) (rows : List (List RawValue)) :
    normalizeChunk (toDF cols rows) = .ok (normDF cols rows) := by
  unfold normDF
  rw [normalizeChunk_eq]

theorem normDF_nrows (cols : List String) (rows : List (List RawValue)) :
    (normDF cols rows).nrows = rows.length := by
  unfold normDF
  rw [normalizeChunk_eq]
  rfl

theorem rowsOf_length (df : DataFrame) : (rowsOf df).length = df.nrows := by
  simp [rowsOf]

theorem loadChunk_normDF (m : Method) (cols : List String)
    (rows : List (List RawValue)) :
    loadChunk m (normDF cols rows) = .ok (storedRows m (normDF cols rows)) := by
  cases m with
  | values => rfl
  | copy =>
    have h := copyChunk_normalizeChunk (toDF cols rows) (normDF cols rows)
      (normDF_eq cols rows)
    simp [loadChunk, storedRows, h]

theorem storedRows_length (m : Method) (cols : List String)
    (rows : List (List RawValue)) :
    (storedRows m (normDF cols rows)).length = rows.length := by
  cases m with
  | values =>
    simp [storedRows, loadChunk, valuesChunk, rowsOf_length, normDF_nrows]
  | copy =>
    have h := copyChunk_normalizeChunk (toDF cols rows) (normDF cols rows)
      (normDF_eq cols rows)
    simp [storedRows, loadChunk, h, rowsOf_length, normDF_nrows]

theorem normAt_eq (cols : List String) (rows : List (List RawValue)) :
    normAt cols rows = .ok (normDF cols rows) := normDF_eq cols rows

/-- Frame property of the batch loop: whatever happens, it never touches
the ledger or the lock table, only appends to the trip table, and only
emits batch-level events (reads, writes, commits, rollbacks). -/
theorem runBatches_frame (imp : Importer) (lf : Nat → Bool)
    (normF : List (List RawValue) → Except String DataFrame) :
    ∀ (cks : List (List (List RawValue))) (done : Nat) (s : DBState) (total : Nat),
      (stateOf (runBatches imp lf normF cks done s total)).ledger = s.ledger
      ∧ (stateOf (runBatches imp lf normF cks done s total)).locks = s.locks
      ∧ (∃ l, (stateOf (runBatches imp lf normF cks done s total)).trips
          = s.trips ++ l)
      ∧ ∀ e ∈ traceOf (runBatches imp lf normF cks done s total),
          isLoopEv e = true := by
  intro cks
  induction cks with
  | nil =>
    intro done s total
    exact ⟨rfl, rfl, ⟨[], by simp [runBatches, stateOf]⟩,
      by simp [runBatches, traceOf]⟩
  | cons rows rest ih =>
    intro done s total
    rw [runBatches]
    cases hn : normF rows with
    | error e =>
      refine ⟨rfl, rfl, ⟨[], by simp [stateOf]⟩, ?_⟩
      intro ev hev
      simp only [traceOf, List.mem_cons, List.mem_singleton,
        List.not_mem_nil, or_false] at hev
      rcases hev with rfl | rfl <;> rfl
    | ok df =>
      simp only []
      by_cases hz : df.nrows = 0
      · rw [if_pos hz]
        simp only [stateOf_prependE, traceOf_prependE]
        obtain ⟨ih1, ih2, ih3, ih4⟩ := ih (done + 1) s total
        refine ⟨ih1, ih2, ih3, ?_⟩
        intro ev hev
        rcases List.mem_append.mp hev with hev | hev
        · simp only [List.mem_singleton] at hev
          subst hev
          rfl
        · exact ih4 ev hev
      · rw [if_neg hz]
        by_cases hdry : imp.dry_run = true
        · rw [if_pos hdry]
          refine ⟨rfl, rfl, ⟨[], by simp [stateOf]⟩, ?_⟩
          intro ev hev
          simp only [traceOf, List.mem_singleton] at hev
          subst hev
          rfl
        · rw [if_neg hdry]
          by_cases hlf : lf (done + 1) = true
          · rw [if_pos hlf]
            refine ⟨rfl, rfl, ⟨[], by simp [stateOf]⟩, ?_⟩
            intro ev hev
            simp only [traceOf, List.mem_cons, List.mem_singleton,
              List.not_mem_nil, or_false] at hev
            rcases hev with rfl | rfl <;> rfl
          · rw [if_neg hlf]
            cases hl : loadChunk imp.method df with
            | error e2 =>
              refine ⟨rfl, rfl, ⟨[], by simp [stateOf]⟩, ?_⟩
              intro ev hev
              simp only [traceOf, List.mem_cons, List.mem_singleton,
                List.not_mem_nil, or_false] at hev
              rcases hev with rfl | rfl <;> rfl
            | ok newRows =>
              simp only [stateOf_prependE, traceOf_prependE]
              obtain ⟨ih1, ih2, ih3, ih4⟩ := ih (done + 1)
                { s with trips := s.trips ++ newRows } (total + df.nrows)
              refine ⟨ih1, ih2, ?_, ?_⟩
              · obtain ⟨l, hl2⟩ := ih3
                exact ⟨newRows ++ l, by rw [hl2]; simp [List.append_assoc]⟩
              · intro ev hev
                rcases List.mem_append.mp hev with hev | hev
                · simp only [List.mem_cons, List.mem_singleton,
                    List.not_mem_nil, or_false] at hev
                  rcases hev with rfl | rfl | rfl <;> rfl
                · exact ih4 ev hev

theorem chunks_ne_nil {α : Type} (B : Nat) (l : List α) :
    ∀ r ∈ chunks B l, r ≠ [] := by
  induction l using chunks.induct B with
  | case1 => simp [chunks]
  | case2 a as hB =>
    intro r hr
    rw [chunks, dif_pos hB] at hr
    simp only [List.mem_singleton] at hr
    subst hr
    simp
  | case3 a as hB ih =>
    intro r hr
    rw [chunks, dif_neg hB] at hr
    rcases List.mem_cons.mp hr with rfl | hr
    · cases B with
      | zero => exact absurd rfl hB
      | succ b => simp
    · exact ih r hr

theorem chunks_length_le {α : Type} (B : Nat) (hB : B ≠ 0) (l : List α) :
    ∀ r ∈ chunks B l, r.length ≤ B := by
  induction l using chunks.induct B with
  | case1 => simp [chunks]
  | case2 a as h => exact absurd h hB
  | case3 a as h ih =>
    intro r hr
    rw [chunks, dif_neg h] at hr
    rcases List.mem_cons.mp hr with rfl | hr
    · exact List.length_take_le B (a :: as)
    · exact ih r hr

theorem chunks_sum_length {α : Type} (B : Nat) (l : List α) :
    ((chunks B l).map List.length).sum = l.length := by
  induction l using chunks.induct B with
  | case1 => simp [chunks]
  | case2 a as h => rw [chunks, dif_pos h]; simp
  | case3 a as h ih =>
    rw [chunks, dif_neg h]
    simp only [List.map_cons, List.sum_cons, ih, List.length_take,
      List.length_drop]
    have : 0 < (a :: as).length := by simp
    omega

theorem chunks_length_pos {α : Type} (B : Nat) (a : α) (as : List α) :
    0 < (chunks B (a :: as)).length := by
  rw [chunks]
  split <;> simp

/-- The success run of the batch loop: no write fails, not a dry run, all
batches non-empty, so every batch is normalized, written and committed, the
trip table grows by exactly the stored rows, and `total_rows` grows by the
batch row counts. -/
theorem runBatches_ok (imp : Importer) (lf : Nat → Bool) (cols : List String)
    (hdry : imp.dry_run = false) (hlf : ∀ i, lf i = false) :
    ∀ (cks : List (List (List RawValue))) (done : Nat) (s : DBState) (total : Nat),
      (∀ r ∈ cks, r ≠ ([] : List (List RawValue))) →
      ∃ t, runBatches imp lf (normAt cols) cks done s total
          = .ok (⟨s.trips
              ++ (cks.map
                (fun rows => storedRows imp.method (normDF cols rows))).flatten,
              s.ledger, s.locks⟩,
            total + (cks.map List.length).sum, t)
        ∧ writeSizes t = cks.map List.length
        ∧ ∀ e ∈ t, isLoopEv e = true := by
  intro cks
  induction cks with
  | nil =>
    intro done s total _
    refine ⟨[], ?_, rfl, by simp⟩
    simp [runBatches]
  | cons rows rest ih =>
    intro done s total hne
    have hrows : rows ≠ [] := hne rows (List.mem_cons_self _ _)
    rw [runBatches, normAt_eq]
    simp only []
    have hz : ¬ ((normDF cols rows).nrows = 0) := by
      rw [normDF_nrows]
      simpa using hrows
    rw [if_neg hz, if_neg (by simp [hdry]), if_neg (by simp [hlf (done + 1)]),
      loadChunk_normDF]
    simp only []
    obtain ⟨t, ht, hw, hl⟩ := ih (done + 1)
      { s with trips := s.trips ++ storedRows imp.method (normDF cols rows) }
      (total + (normDF cols rows).nrows)
      (fun r hr => hne r (List.mem_cons_of_mem _ hr))
    rw [ht]
    refine ⟨[Event.readBatch (done + 1),
      Event.write (normDF cols rows).nrows, Event.commit] ++ t, ?_, ?_, ?_⟩
    · simp [prependE, List.append_assoc, Nat.add_assoc, normDF_nrows]
    · simp [writeSizes, List.filterMap_cons, normDF_nrows] at hw ⊢
      exact hw
    · intro e he
      rcases List.mem_append.mp he with he | he
      · simp only [List.mem_cons, List.mem_singleton,
          List.not_mem_nil, or_false] at he
        rcases he with rfl | rfl | rfl <;> rfl
      · exact hl e he

/-- The failing run of the batch loop: the first `j` batches write and
commit, batch `j+1` raises, the handler rolls back, so the trip table
keeps exactly the first `j` batches and the loop reports the exception. -/
theorem runBatches_fail (imp : Importer) (lf : Nat → Bool) (cols : List String)
    (hdry : imp.dry_run = false) :
    ∀ (j : Nat) (cks : List (List (List RawValue))) (done : Nat) (s : DBState)
      (total : Nat),
      j < cks.length → (∀ r ∈ cks, r ≠ ([] : List (List RawValue))) →
      (∀ i, i < j → lf (done + i + 1) = false) → lf (done + j + 1) = true →
      ∃ t, runBatches imp lf (normAt cols) cks done s total
          = .error (⟨s.trips
              ++ ((cks.take j).map
                (fun rows => storedRows imp.method (normDF cols rows))).flatten,
              s.ledger, s.locks⟩, t) := by
  intro j
  induction j with
  | zero =>
    intro cks done s total hj hne _ hfail
    cases cks with
    | nil => simp at hj
    | cons rows rest =>
      have hrows : rows ≠ [] := hne rows (List.mem_cons_self _ _)
      rw [runBatches, normAt_eq]
      simp only []
      have hz : ¬ ((normDF cols rows).nrows = 0) := by
        rw [normDF_nrows]
        simpa using hrows
      rw [if_neg hz, if_neg (by simp [hdry]),
        if_pos (by simpa using hfail)]
      exact ⟨[Event.readBatch (done + 1), Event.rollback], by simp⟩
  | succ j ihj =>
    intro cks done s total hj hne hbef hfail
    cases cks with
    | nil => simp at hj
    | cons rows rest =>
      have hrows : rows ≠ [] := hne rows (List.mem_cons_self _ _)
      rw [runBatches, normAt_eq]
      simp only []
      have hz : ¬ ((normDF cols rows).nrows = 0) := by
        rw [normDF_nrows]
        simpa using hrows
      have hb0 : lf (done + 1) = false := by
        simpa using hbef 0 (Nat.succ_pos j)
      rw [if_neg hz, if_neg (by simp [hdry]), if_neg (by simp [hb0]),
        loadChunk_normDF]
      simp only []
      obtain ⟨t, ht⟩ := ihj rest (done + 1)
        { s with trips := s.trips ++ storedRows imp.method (normDF cols rows) }
        (total + (normDF cols rows).nrows)
        (by simpa using hj)
        (fun r hr => hne r (List.mem_cons_of_mem _ hr))
        (fun i hi => by
          have := hbef (i + 1) (by omega)
          have harith : done + (i + 1) + 1 = done + 1 + i + 1 := by omega
          rwa [harith] at this)
        (by
          have harith : done + (j + 1) + 1 = done + 1 + j + 1 := by omega
          rwa [harith] at hfail)
      rw [ht]
      refine ⟨[Event.readBatch (done + 1),
        Event.write (normDF cols rows).nrows, Event.commit] ++ t, ?_⟩
      simp [prependE, List.append_assoc]

/-- The batch loop on an empty batch sequence does nothing. -/
theorem runBatches_nil (imp : Importer) (lf : Nat → Bool)
    (normF : List (List RawValue) → Except String DataFrame)
    (done : Nat) (s : DBState) (total : Nat) :
    runBatches imp lf normF [] done s total = .ok (s, total, []) := by
  rw [runBatches]

/-- The dry run of the batch loop: it reads the first (non-empty) batch,
writes nothing, and stops. -/
theorem runBatches_dry_cons (imp : Importer) (lf : Nat → Bool)
    (cols : List String) (hdry : imp.dry_run = true)
    (rows : List (List RawValue)) (rest : List (List (List RawValue)))
    (done : Nat) (s : DBState) (total : Nat) (hrows : rows ≠ []) :
    runBatches imp lf (normAt cols) (rows :: rest) done s total
      = .ok (s, total + rows.length, [Event.readBatch (done + 1)]) := by
  rw [runBatches, normAt_eq]
  simp only []
  have hz : ¬ ((normDF cols rows).nrows = 0) := by
    rw [normDF_nrows]
    simpa using hrows
  rw [if_neg hz, if_pos hdry, normDF_nrows]

/-- Ledger hit: the file is skipped before any lock attempt, with no state
change at all (db_connector.py lines 175-177). -/
theorem importParquet_ledgerHit (imp : Importer) (lf : Nat → Bool) (uf : Bool)
    (file : PFile) (s : DBState)
    (h : is_file_imported s file.path.name = true) :
    importParquet imp lf uf file s
      = (false, s, [Event.checkLedger file.path.name true]) := by
  simp only [importParquet, h, if_true]

/-- Lock denied: the file is skipped after the failed lock probe, with no
state change at all (db_connector.py lines 179-181). -/
theorem importParquet_lockDenied (imp : Importer) (lf : Nat → Bool) (uf : Bool)
    (file : PFile) (s : DBState)
    (h1 : is_file_imported s file.path.name = false)
    (h2 : s.locks.contains (hashtext file.path.name) = true) :
    importParquet imp lf uf file s
      = (false, s, [Event.checkLedger file.path.name false,
          Event.tryLock (hashtext file.path.name) false]) := by
  simp only [importParquet, h1, h2, Bool.false_eq_true, if_false, if_true]

/-- The successful import of a new, unlocked file: every batch is written
and committed, one ledger entry is inserted with the accumulated total, and
the lock is released (kept only if the release itself fails). -/
theorem importParquet_success (imp : Importer) (lf : Nat → Bool) (uf : Bool)
    (file : PFile) (s : DBState)
    (hdry : imp.dry_run = false) (hlf : ∀ i, lf i = false)
    (h1 : is_file_imported s file.path.name = false)
    (h2 : s.locks.contains (hashtext file.path.name) = false) :
    ∃ tl, importParquet imp lf uf file s
        = (true,
           ⟨s.trips ++ ((chunks imp.batch_size file.rows).map
               (fun rows => storedRows imp.method (normDF file.cols rows))).flatten,
            s.ledger ++ [(file.path.name,
              ((chunks imp.batch_size file.rows).map List.length).sum)],
            if uf then hashtext file.path.name :: s.locks else s.locks⟩,
           [Event.checkLedger file.path.name false,
            Event.tryLock (hashtext file.path.name) true]
            ++ (tl ++ [Event.insertLedger file.path.name
                  ((chunks imp.batch_size file.rows).map List.length).sum,
                Event.commit])
            ++ [Event.unlockAttempt (hashtext file.path.name)])
      ∧ writeSizes tl = (chunks imp.batch_size file.rows).map List.length
      ∧ ∀ e ∈ tl, isLoopEv e = true := by
  obtain ⟨tl, ht, hw, hl⟩ := runBatches_ok imp lf file.cols hdry hlf
    (chunks imp.batch_size file.rows) 0
    { s with locks := hashtext file.path.name :: s.locks } 0
    (chunks_ne_nil _ _)
  refine ⟨tl, ?_, hw, hl⟩
  simp only [importParquet, h1, h2, Bool.false_eq_true, if_false, ht, hdry]
  cases uf with
  | true => simp
  | false => simp [List.erase_cons_head]

/-- A `True` result of a non-dry `import_parquet` always leaves the file
name in the ledger. -/
theorem importParquet_true_ledger (imp : Importer) (lf : Nat → Bool)
    (uf : Bool) (file : PFile) (s : DBState)
    (hdry : imp.dry_run = false)
    (h : (importParquet imp lf uf file s).1 = true) :
    is_file_imported (importParquet imp lf uf file s).2.1 file.path.name
      = true := by
  by_cases h1 : is_file_imported s file.path.name = true
  · rw [importParquet_ledgerHit imp lf uf file s h1] at h
    simp at h
  · have h1f : is_file_imported s file.path.name = false := by
      simpa using h1
    by_cases h2 : s.locks.contains (hashtext file.path.name) = true
    · rw [importParquet_lockDenied imp lf uf file s h1f h2] at h
      simp at h
    · simp only [importParquet, h1f, h2, Bool.false_eq_true, if_false] at h ⊢
      cases hrb : runBatches imp lf (normAt file.cols)
          (chunks imp.batch_size file.rows) 0
          { s with locks := hashtext file.path.name :: s.locks } 0 with
      | error p =>
        obtain ⟨sE, t⟩ := p
        rw [hrb] at h
        simp at h
      | ok p =>
        obtain ⟨s2, total, t⟩ := p
        simp only [hdry, Bool.false_eq_true, if_false]
        cases uf <;> simp [is_file_imported]

/-- Ledger-check / lock events. -/
def isLockEv : Event → Bool
  | .tryLock _ _ => true
  | _ => false

theorem loopEv_not_lock (e : Event) (h : isLoopEv e = true) :
    isLockEv e = false := by
  cases e <;> simp_all [isLoopEv, isLockEv]

/-- Import of a new, unlocked file whose batch `j+1` write raises: the
first `j` batches stay committed, no ledger entry is written, the lock is
released (kept only if the release fails), and the call returns `False`. -/
theorem importParquet_failAt (imp : Importer) (lf : Nat → Bool) (uf : Bool)
    (file : PFile) (s : DBState) (j : Nat)
    (hdry : imp.dry_run = false)
    (h1 : is_file_imported s file.path.name = false)
    (h2 : s.locks.contains (hashtext file.path.name) = false)
    (hj : j < (chunks imp.batch_size file.rows).length)
    (hbef : ∀ i, i < j → lf (i + 1) = false)
    (hfail : lf (j + 1) = true) :
    ∃ t, importParquet imp lf uf file s
        = (false,
           ⟨s.trips ++ (((chunks imp.batch_size file.rows).take j).map
               (fun rows => storedRows imp.method (normDF file.cols rows))).flatten,
            s.ledger,
            if uf then hashtext file.path.name :: s.locks else s.locks⟩,
           t) := by
  obtain ⟨t, ht⟩ := runBatches_fail imp lf file.cols hdry j
    (chunks imp.batch_size file.rows) 0
    { s with locks := hashtext file.path.name :: s.locks } 0 hj
    (chunks_ne_nil _ _)
    (fun i hi => by simpa using hbef i hi)
    (by simpa using hfail)
  refine ⟨[Event.checkLedger file.path.name false,
    Event.tryLock (hashtext file.path.name) true] ++ t
    ++ [Event.unlockAttempt (hashtext file.path.name)], ?_⟩
  simp only [importParquet, h1, h2, Bool.false_eq_true, if_false, ht]
  cases uf with
  | true => simp
  | false => simp [List.erase_cons_head]

/-- A failing lock release is contained: the result, the trip table, the
ledger and even the trace are the same as when the release succeeds; only
the lock table differs. -/
theorem importParquet_unlock_indep (imp : Importer) (lf : Nat → Bool)
    (uf : Bool) (file : PFile) (s : DBState) :
    (importParquet imp lf uf file s).1 = (importParquet imp lf false file s).1
    ∧ (importParquet imp lf uf file s).2.1.trips
        = (importParquet imp lf false file s).2.1.trips
    ∧ (importParquet imp lf uf file s).2.1.ledger
        = (importParquet imp lf false file s).2.1.ledger
    ∧ (importParquet imp lf uf file s).2.2
        = (importParquet imp lf false file s).2.2 := by
  by_cases h1 : is_file_imported s file.path.name = true
  · rw [importParquet_ledgerHit imp lf uf file s h1,
      importParquet_ledgerHit imp lf false file s h1]
    exact ⟨rfl, rfl, rfl, rfl⟩
  · have h1f : is_file_imported s file.path.name = false := by simpa using h1
    by_cases h2 : s.locks.contains (hashtext file.path.name) = true
    · rw [importParquet_lockDenied imp lf uf file s h1f h2,
        importParquet_lockDenied imp lf false file s h1f h2]
      exact ⟨rfl, rfl, rfl, rfl⟩
    · have h2f : s.locks.contains (hashtext file.path.name) = false := by
        simpa using h2
      simp only [importParquet, h1f, h2f, Bool.false_eq_true, if_false]
      cases uf <;> simp

/-- Every `import_parquet` trace has one of three shapes: ledger-hit skip,
lock-denied skip, or an acquired run whose first events are the ledger
check and the successful lock probe and whose very last event is the
release attempt of that same lock key, with no lock event in between. -/
theorem importParquet_trace_cases (imp : Importer) (lf : Nat → Bool)
    (uf : Bool) (file : PFile) (s : DBState) :
    (importParquet imp lf uf file s).2.2
        = [Event.checkLedger file.path.name true]
    ∨ (importParquet imp lf uf file s).2.2
        = [Event.checkLedger file.path.name false,
           Event.tryLock (hashtext file.path.name) false]
    ∨ ∃ mid, (importParquet imp lf uf file s).2.2
        = [Event.checkLedger file.path.name false,
           Event.tryLock (hashtext file.path.name) true] ++ mid
          ++ [Event.unlockAttempt (hashtext file.path.name)]
        ∧ ∀ e ∈ mid, isLockEv e = false := by
  by_cases h1 : is_file_imported s file.path.name = true
  · rw [importParquet_ledgerHit imp lf uf file s h1]
    exact Or.inl rfl
  · have h1f : is_file_imported s file.path.name = false := by simpa using h1
    by_cases h2 : s.locks.contains (hashtext file.path.name) = true
    · rw [importParquet_lockDenied imp lf uf file s h1f h2]
      exact Or.inr (Or.inl rfl)
    · have h2f : s.locks.contains (hashtext file.path.name) = false := by
        simpa using h2
      right; right
      have hframe := (runBatches_frame imp lf (normAt file.cols)
        (chunks imp.batch_size file.rows) 0
        { s with locks := hashtext file.path.name :: s.locks } 0).2.2.2
      simp only [importParquet, h1f, h2f, Bool.false_eq_true, if_false]
      cases hrb : runBatches imp lf (normAt file.cols)
          (chunks imp.batch_size file.rows) 0
          { s with locks := hashtext file.path.name :: s.locks } 0 with
      | error p =>
        obtain ⟨sE, t⟩ := p
        rw [hrb] at hframe
        refine ⟨t, by cases uf <;> simp, ?_⟩
        intro e he
        exact loopEv_not_lock e (hframe e (by simpa [traceOf] using he))
      | ok p =>
        obtain ⟨s2, total, t⟩ := p
        rw [hrb] at hframe
        by_cases hdry : imp.dry_run = true
        · refine ⟨t, by cases uf <;> simp [hdry], ?_⟩
          intro e he
          exact loopEv_not_lock e (hframe e (by simpa [traceOf] using he))
        · refine ⟨t ++ [Event.insertLedger file.path.name total, Event.commit],
            by cases uf <;> simp [hdry], ?_⟩
          intro e he
          rcases List.mem_append.mp he with he | he
          · exact loopEv_not_lock e (hframe e (by simpa [traceOf] using he))
          · simp only [List.mem_cons, List.mem_singleton,
              List.not_mem_nil, or_false] at he
            rcases he with rfl | rfl <;> rfl

def isInsertEv : Event → Bool
  | .insertLedger _ _ => true
  | _ => false

def isReadEv : Event → Bool
  | .readBatch _ => true
  | _ => false

/-- Number of ledger inserts recorded in a trace. -/
def countInserts (t : List Event) : Nat := t.countP isInsertEv

/-- Number of batch reads recorded in a trace. -/
def countReads (t : List Event) : Nat := t.countP isReadEv

theorem loopEv_not_insert (e : Event) (h : isLoopEv e = true) :
    isInsertEv e = false := by
  cases e <;> simp_all [isLoopEv, isInsertEv]

theorem countInserts_loop (t : List Event)
    (h : ∀ e ∈ t, isLoopEv e = true) : countInserts t = 0 := by
  unfold countInserts
  rw [List.countP_eq_zero]
  intro e he
  simp [loopEv_not_insert e (h e he)]

theorem writeSizes_loop_append (t u : List Event) :
    writeSizes (t ++ u) = writeSizes t ++ writeSizes u := by
  simp [writeSizes]

theorem normCellFn_null (c : String) :
    normCellFn c RawValue.null = RawValue.null := by
  unfold normCellFn classCoerce
  split_ifs <;> rfl

theorem numNames_sub : ∀ x ∈ numNames, x ∈ srcCols := by
  intro x hx
  fin_cases hx <;> simp [srcCols]

theorem tsNames_sub : ∀ x ∈ tsNames, x ∈ srcCols := by
  intro x hx
  fin_cases hx <;> simp [srcCols]

theorem numNames_not_ts : ∀ x ∈ numNames, ¬ x ∈ tsNames := by
  intro x hx
  fin_cases hx <;> simp [tsNames]

theorem flatten_stored_length (m : Method) (cols : List String)
    (cks : List (List (List RawValue))) :
    ((cks.map (fun rows => storedRows m (normDF cols rows))).flatten).length
      = (cks.map List.length).sum := by
  induction cks with
  | nil => simp
  | cons rows rest ih => simp [ih, storedRows_length]

/-- C1. Idempotency via the ledger: any file whose name is already in the
ledger is skipped — `import_parquet` returns `False`, touches nothing, and
its whole trace is the single ledger check (so no lock is attempted and no
row or ledger entry is written); consequently a successful non-dry import
followed by a second import of the same file with no store changes in
between leaves the state of the second run untouched. -/
theorem claim1_ledger_idempotence (imp imp2 : Importer)
    (lf lf2 : Nat → Bool) (uf uf2 : Bool) (file : PFile) (s : DBState)
    (hdry : imp.dry_run = false) :
    (∀ s0 : DBState, is_file_imported s0 file.path.name = true →
      importParquet imp2 lf2 uf2 file s0
        = (false, s0, [Event.checkLedger file.path.name true]))
    ∧ ((importParquet imp lf uf file s).1 = true →
      importParquet imp2 lf2 uf2 file (importParquet imp lf uf file s).2.1
        = (false, (importParquet imp lf uf file s).2.1,
           [Event.checkLedger file.path.name true])) :=
  ⟨fun s0 h => importParquet_ledgerHit imp2 lf2 uf2 file s0 h,
   fun h => importParquet_ledgerHit imp2 lf2 uf2 file _
     (importParquet_true_ledger imp lf uf file s hdry h)⟩

/-- C2. Mutual exclusion on lock denial: for a file not in the ledger whose
advisory-lock key is already held, `import_parquet` returns a skip
(`False`) with the store untouched; its trace is the ledger check and the
failed lock probe, so it performed zero trip-table writes and zero ledger
inserts — the sequentialized form of "of two concurrent attempts on the
same file, the one that finds the lock held does not load". -/
theorem claim2_lock_denied_skip (imp : Importer) (lf : Nat → Bool)
    (uf : Bool) (file : PFile) (s : DBState)
    (h1 : is_file_imported s file.path.name = false)
    (h2 : s.locks.contains (hashtext file.path.name) = true) :
    importParquet imp lf uf file s
      = (false, s, [Event.checkLedger file.path.name false,
          Event.tryLock (hashtext file.path.name) false])
    ∧ writeSizes (importParquet imp lf uf file s).2.2 = []
    ∧ countInserts (importParquet imp lf uf file s).2.2 = 0 := by
  have h := importParquet_lockDenied imp lf uf file s h1 h2
  refine ⟨h, ?_, ?_⟩ <;> rw [h] <;> rfl

/-- C3. Lock release on all paths: whenever a trace records a successful
lock acquisition, the very last event of the call is the release attempt of
that same key — on the success path, the batch-failure path and the
dry-run path alike; and a failure of the release itself is contained: the
result, the trip table and the ledger are identical to the run whose
release succeeds. -/
theorem claim3_lock_release (imp : Importer) (lf : Nat → Bool) (uf : Bool)
    (file : PFile) (s : DBState) :
    (∀ k, Event.tryLock k true ∈ (importParquet imp lf uf file s).2.2 →
      (importParquet imp lf uf file s).2.2.getLast?
        = some (Event.unlockAttempt k))
    ∧ (importParquet imp lf uf file s).1
        = (importParquet imp lf false file s).1
    ∧ (importParquet imp lf uf file s).2.1.trips
        = (importParquet imp lf false file s).2.1.trips
    ∧ (importParquet imp lf uf file s).2.1.ledger
        = (importParquet imp lf false file s).2.1.ledger := by
  obtain ⟨ha, hb, hc, _⟩ := importParquet_unlock_indep imp lf uf file s
  refine ⟨?_, ha, hb, hc⟩
  intro k hk
  rcases importParquet_trace_cases imp lf uf file s with h | h | ⟨mid, h, hmid⟩
  · rw [h] at hk
    simp at hk
  · rw [h] at hk
    simp at hk
  · rw [h] at hk ⊢
    have hkk : k = hashtext file.path.name := by
      simp only [List.mem_append, List.mem_cons, List.mem_singleton,
        List.not_mem_nil, or_false] at hk
      rcases hk with ((hk | hk) | hk) | hk
      · simp at hk
      · simpa using hk
      · have := hmid _ hk
        simp [isLockEv] at this
      · simp at hk
    subst hkk
    rw [List.getLast?_concat]

/-- C4. Failure containment at file granularity: when the write of batch
`j+1` of a new, unlocked file raises, the call returns `False`, the
batches committed before the failure remain in the trip table while the
in-flight batch is rolled back, no ledger entry is written, the lock is
released, and the orchestrator goes on with the remaining files from that
state — the run is never aborted. -/
theorem claim4_failure_containment (imp : Importer) (lfA : Nat → Nat → Bool)
    (ufA : Nat → Bool) (file : PFile) (rest : List PFile) (k : Nat)
    (s : DBState) (j : Nat)
    (hdry : imp.dry_run = false)
    (h1 : is_file_imported s file.path.name = false)
    (h2 : s.locks.contains (hashtext file.path.name) = false)
    (huf : ufA k = false)
    (hj : j < (chunks imp.batch_size file.rows).length)
    (hbef : ∀ i, i < j → lfA k (i + 1) = false)
    (hfail : lfA k (j + 1) = true) :
    (importParquet imp (lfA k) (ufA k) file s).1 = false
    ∧ (importParquet imp (lfA k) (ufA k) file s).2.1.ledger = s.ledger
    ∧ (importParquet imp (lfA k) (ufA k) file s).2.1.locks = s.locks
    ∧ (importParquet imp (lfA k) (ufA k) file s).2.1.trips
        = s.trips ++ (((chunks imp.batch_size file.rows).take j).map
            (fun rows => storedRows imp.method (normDF file.cols rows))).flatten
    ∧ importAll imp lfA ufA (file :: rest) k s
        = ((importAll imp lfA ufA rest (k + 1)
              (importParquet imp (lfA k) (ufA k) file s).2.1).1,
           (importAll imp lfA ufA rest (k + 1)
              (importParquet imp (lfA k) (ufA k) file s).2.1).2.1,
           (importParquet imp (lfA k) (ufA k) file s).2.2
             ++ (importAll imp lfA ufA rest (k + 1)
                  (importParquet imp (lfA k) (ufA k) file s).2.1).2.2) := by
  obtain ⟨t, ht⟩ := importParquet_failAt imp (lfA k) (ufA k) file s j
    hdry h1 h2 hj hbef hfail
  rw [huf] at ht
  simp only [Bool.false_eq_true, if_false] at ht
  refine ⟨by rw [huf, ht], by rw [huf, ht], by rw [huf, ht],
    by rw [huf, ht], ?_⟩
  rw [importAll, huf, ht]
  simp

/-- C7. Dry-run purity: with dry-run enabled, for any file, any batch size
and any starting state, `import_parquet` leaves the trip table and the
ledger exactly as they were, its trace records no write and no ledger
insert, and at most one batch is read. -/
theorem claim7_dry_run_purity (imp : Importer) (lf : Nat → Bool) (uf : Bool)
    (file : PFile) (s : DBState) (hdry : imp.dry_run = true) :
    (importParquet imp lf uf file s).2.1.trips = s.trips
    ∧ (importParquet imp lf uf file s).2.1.ledger = s.ledger
    ∧ writeSizes (importParquet imp lf uf file s).2.2 = []
    ∧ countInserts (importParquet imp lf uf file s).2.2 = 0
    ∧ countReads (importParquet imp lf uf file s).2.2 ≤ 1 := by
  by_cases h1 : is_file_imported s file.path.name = true
  · rw [importParquet_ledgerHit imp lf uf file s h1]
    simp [writeSizes, countInserts, countReads, isInsertEv, isReadEv]
  · have h1f : is_file_imported s file.path.name = false := by simpa using h1
    by_cases h2 : s.locks.contains (hashtext file.path.name) = true
    · rw [importParquet_lockDenied imp lf uf file s h1f h2]
      simp [writeSizes, countInserts, countReads, isInsertEv, isReadEv,
        List.countP_cons]
    · have h2f : s.locks.contains (hashtext file.path.name) = false := by
        simpa using h2
      simp only [importParquet, h1f, h2f, Bool.false_eq_true, if_false]
      cases hc : chunks imp.batch_size file.rows with
      | nil =>
        rw [runBatches_nil]
        simp only [hdry, if_true]
        cases uf <;>
          simp [writeSizes, countInserts, countReads, isInsertEv, isReadEv,
            List.countP_cons]
      | cons rows rest =>
        have hrows : rows ≠ [] := chunks_ne_nil imp.batch_size file.rows rows
          (by rw [hc]; exact List.mem_cons_self _ _)
        rw [runBatches_dry_cons imp lf file.cols hdry rows rest 0 _ 0 hrows]
        simp only [hdry, if_true]
        cases uf <;>
          simp [writeSizes, countInserts, countReads, isInsertEv, isReadEv,
            List.countP_cons]

/-- C8. Batch accounting: importing a new, unlocked file of `R` rows with
a positive batch size and no write failures succeeds with every batch
non-empty and at most the batch size, the committed write sizes summing to
exactly `R`, exactly one ledger insert whose `rows_imported` is `R`, and
the trip table growing by exactly `R` rows. -/
theorem claim8_batch_accounting (imp : Importer) (lf : Nat → Bool) (uf : Bool)
    (file : PFile) (s : DBState)
    (hdry : imp.dry_run = false) (hB : imp.batch_size ≠ 0)
    (hlf : ∀ i, lf i = false)
    (h1 : is_file_imported s file.path.name = false)
    (h2 : s.locks.contains (hashtext file.path.name) = false) :
    (importParquet imp lf uf file s).1 = true
    ∧ (importParquet imp lf uf file s).2.1.ledger
        = s.ledger ++ [(file.path.name, file.rows.length)]
    ∧ countInserts (importParquet imp lf uf file s).2.2 = 1
    ∧ (writeSizes (importParquet imp lf uf file s).2.2).sum = file.rows.length
    ∧ (∀ w ∈ writeSizes (importParquet imp lf uf file s).2.2,
        0 < w ∧ w ≤ imp.batch_size)
    ∧ (importParquet imp lf uf file s).2.1.trips.length
        = s.trips.length + file.rows.length := by
  obtain ⟨tl, ht, hw, hl⟩ := importParquet_success imp lf uf file s
    hdry hlf h1 h2
  rw [ht]
  refine ⟨rfl, by simp [chunks_sum_length], ?_, ?_, ?_, ?_⟩
  · simp only [countInserts, List.countP_append, List.countP_cons,
      List.countP_nil]
    have h0 : List.countP isInsertEv tl = 0 := countInserts_loop tl hl
    simp [isInsertEv, h0]
  · have hpre : writeSizes [Event.checkLedger file.path.name false,
        Event.tryLock (hashtext file.path.name) true] = [] := rfl
    have hins : ∀ n : Nat,
        writeSizes [Event.insertLedger file.path.name n, Event.commit]
          = [] := fun _ => rfl
    have hunl : writeSizes [Event.unlockAttempt
        (hashtext file.path.name)] = [] := rfl
    rw [writeSizes_loop_append, writeSizes_loop_append,
      writeSizes_loop_append, hpre, hins, hunl, hw]
    simp [chunks_sum_length]
  · intro w hww
    have hpre : writeSizes [Event.checkLedger file.path.name false,
        Event.tryLock (hashtext file.path.name) true] = [] := rfl
    have hins : ∀ n : Nat,
        writeSizes [Event.insertLedger file.path.name n, Event.commit]
          = [] := fun _ => rfl
    have hunl : writeSizes [Event.unlockAttempt
        (hashtext file.path.name)] = [] := rfl
    rw [writeSizes_loop_append, writeSizes_loop_append,
      writeSizes_loop_append, hpre, hins, hunl, hw] at hww
    simp only [List.nil_append, List.append_nil] at hww
    obtain ⟨rows, hrows, rfl⟩ := List.mem_map.mp hww
    constructor
    · exact List.length_pos.mpr (chunks_ne_nil _ _ rows hrows)
    · exact chunks_length_le imp.batch_size hB file.rows rows hrows
  · simp only [List.length_append, flatten_stored_length, chunks_sum_length]

/-- C10. File identity is the base name only: the ledger check and the
advisory-lock key are derived from `file_path.name`, so when the scan
yields two distinct files with the same base name (any two paths, any two
contents), the one processed second is skipped as already imported: the
run imports exactly one file, the ledger gains exactly the first file's
entry, the trip table gains exactly the first file's rows, and the second
call returns the ledger-hit skip. -/
theorem claim10_basename_identity (imp : Importer) (lfA : Nat → Nat → Bool)
    (ufA : Nat → Bool) (f1 f2 : PFile) (k : Nat) (s : DBState)
    (hdry : imp.dry_run = false)
    (hname : f1.path.name = f2.path.name)
    (hlf : ∀ a b, lfA a b = false) (huf : ∀ a, ufA a = false)
    (h1 : is_file_imported s f1.path.name = false)
    (h2 : s.locks.contains (hashtext f1.path.name) = false) :
    (importAll imp lfA ufA [f1, f2] k s).1 = 1
    ∧ (importAll imp lfA ufA [f1, f2] k s).2.1.ledger
        = s.ledger ++ [(f1.path.name,
            ((chunks imp.batch_size f1.rows).map List.length).sum)]
    ∧ (importAll imp lfA ufA [f1, f2] k s).2.1.trips
        = s.trips ++ ((chunks imp.batch_size f1.rows).map
            (fun rows => storedRows imp.method (normDF f1.cols rows))).flatten
    ∧ importParquet imp (lfA (k + 1)) (ufA (k + 1)) f2
        (importParquet imp (lfA k) (ufA k) f1 s).2.1
      = (false, (importParquet imp (lfA k) (ufA k) f1 s).2.1,
         [Event.checkLedger f2.path.name true]) := by
  obtain ⟨tl, ht, hw, hl⟩ := importParquet_success imp (lfA k) (ufA k) f1 s
    hdry (hlf k) h1 h2
  rw [huf k] at ht
  simp only [Bool.false_eq_true, if_false] at ht
  have himp2 : is_file_imported
      (importParquet imp (lfA k) (ufA k) f1 s).2.1 f2.path.name = true := by
    rw [huf k, ht]
    simp [is_file_imported, hname]
  have hskip := importParquet_ledgerHit imp (lfA (k + 1)) (ufA (k + 1)) f2 _
    himp2
  rw [huf k, huf (k + 1), ht] at hskip
  refine ⟨?_, ?_, ?_, ?_⟩
  · rw [importAll, importAll, importAll, huf k, huf (k + 1), ht, hskip]
    simp
  · rw [importAll, importAll, importAll, huf k, huf (k + 1), ht, hskip]
  · rw [importAll, importAll, importAll, huf k, huf (k + 1), ht, hskip]
  · rw [huf k, huf (k + 1), ht]
    exact hskip

/-- C5. Normalizer column completeness: for every input batch the
normalizer succeeds and returns a batch whose column names are exactly the
canonical 19-column list in order — columns absent from the source batch
come out as all-null columns, extra source columns are dropped (the output
names are exactly `srcCols`), and the row count is preserved. -/
theorem claim5_column_completeness (df : DataFrame) :
    ∃ out, normalizeChunk df = .ok out
      ∧ out.cols.map Prod.fst = srcCols
      ∧ out.nrows = df.nrows
      ∧ ∀ c, c ∈ srcCols → lookupCol c df.cols = none →
          lookupCol c out.cols
            = some (List.replicate df.nrows RawValue.null) := by
  refine ⟨_, normalizeChunk_eq df, ?_, rfl, ?_⟩
  · simp only [List.map_map]
    have : (Prod.fst ∘ fun c =>
        ((c, (colOrNull df c).map (normCellFn c)) : String × List RawValue))
        = id := rfl
    rw [this, List.map_id]
  · intro c hc habs
    rw [lookupCol_map_mk]
    simp only [hc, if_pos]
    have hcol : colOrNull df c = List.replicate df.nrows RawValue.null := by
      simp [colOrNull, habs]
    rw [hcol, List.map_replicate, normCellFn_null]

/-- C6. Coercion safety: normalization never raises; every numeric and
timestamp column of the output is the cell-wise coercion of the original
column, where a cell that fails to parse becomes null while a cell that
parses keeps its value, and all rows of the batch survive (the row count
is unchanged, so they all still load). -/
theorem claim6_coercion_safety (df : DataFrame) :
    ∃ out, normalizeChunk df = .ok out
      ∧ out.nrows = df.nrows
      ∧ (rowsOf out).length = df.nrows
      ∧ (∀ c ∈ numNames, lookupCol c out.cols
          = some ((colOrNull df c).map (fun v => denan (toNumericCoerce v))))
      ∧ (∀ c ∈ tsNames, lookupCol c out.cols
          = some ((colOrNull df c).map (fun v => denan (toDatetimeCoerce v))))
      ∧ (∀ s2 : String, parseIntStr s2 = none →
          denan (toNumericCoerce (RawValue.str s2)) = RawValue.null)
      ∧ (∀ (s2 : String) (n : Int), parseIntStr s2 = some n →
          denan (toNumericCoerce (RawValue.str s2)) = RawValue.int n) := by
  refine ⟨_, normalizeChunk_eq df, rfl, by simp [rowsOf], ?_, ?_, ?_, ?_⟩
  · intro c hc
    rw [lookupCol_map_mk]
    simp only [numNames_sub c hc, if_pos]
    congr 1
    apply List.map_congr_left
    intro v _
    unfold normCellFn classCoerce
    rw [if_neg (numNames_not_ts c hc), if_pos hc]
  · intro c hc
    rw [lookupCol_map_mk]
    simp only [tsNames_sub c hc, if_pos]
    congr 1
    apply List.map_congr_left
    intro v _
    unfold normCellFn classCoerce
    rw [if_pos hc]
  · intro s2 hs2
    simp [toNumericCoerce, hs2, denan]
  · intro s2 n hs2
    simp [toNumericCoerce, hs2, denan]

/-- C9 counterexample. The two loading strategies are NOT byte-for-byte
equivalent on every normalized batch: on the normalized batch of a source
batch whose `store_and_fwd_flag` holds the empty string, the bulk-copy
strategy stores NULL for that cell (the csv writer emits a zero-width
unquoted field, which COPY reads as NULL) while the row-insert strategy
stores the empty string — the stored rows differ at column index 6. -/
theorem claim9_counterexample :
    storedRows Method.copy (normDF ["store_and_fwd_flag"] [[RawValue.str ""]])
      ≠ storedRows Method.values
          (normDF ["store_and_fwd_flag"] [[RawValue.str ""]])
    ∧ (storedRows Method.copy
        (normDF ["store_and_fwd_flag"] [[RawValue.str ""]])).map
          (fun r => r.getD 6 RawValue.nan) = [RawValue.null]
    ∧ (valuesChunk (normDF ["store_and_fwd_flag"] [[RawValue.str ""]])).map
        (fun r => r.getD 6 RawValue.nan) = [RawValue.str ""] :=
  ⟨by decide, by decide, by decide⟩

/-- C9 as amended: for every normalized batch none of whose text-flag cells
is the empty string, the bulk-copy strategy and the row-insert strategy
store exactly the same rows (and the copy stream never fails); the only
divergence the code permits is the empty-string-to-NULL collapse of the
counterexample. -/
theorem claim9_amended_loading_equivalence (df n0 : DataFrame)
    (h : normalizeChunk df = .ok n0)
    (hflag : RawValue.str ""
      ∉ (lookupCol "store_and_fwd_flag" n0.cols).getD []) :
    copyChunk n0 = .ok (valuesChunk n0) := by
  rw [copyChunk_normalizeChunk df n0 h]
  unfold valuesChunk
  refine congrArg Except.ok ?_
  conv_rhs => rw [← List.map_id (rowsOf n0)]
  apply List.map_congr_left
  intro r hr
  obtain ⟨g, rfl, hshape, hmem⟩ := rowsOf_normalizeChunk df n0 h r hr
  show List.map copyTransport (srcCols.map g) = id (srcCols.map g)
  rw [id_eq, List.map_map]
  apply List.map_congr_left
  intro c hc
  show copyTransport (g c) = g c
  rcases srcCols_class c hc with hts | ⟨hnts, hnum⟩ | ⟨hnts, hnnum, hflagc⟩
  · have hs := hshape c hc
    rw [show classOf c = ColClass.tsC from by simp [classOf, hts]] at hs
    rcases hs with heq | ⟨t, heq⟩ <;> rw [heq] <;> simp [copyTransport]
  · have hs := hshape c hc
    rw [show classOf c = ColClass.numC from by
      simp [classOf, hnts, hnum]] at hs
    rcases hs with heq | ⟨n, heq⟩ <;> rw [heq] <;> simp [copyTransport]
  · subst hflagc
    rcases hmem _ hc with hin | heq
    · have hne : g "store_and_fwd_flag" ≠ RawValue.str "" :=
        fun he => hflag (he ▸ hin)
      simp [copyTransport, hne]
    · rw [heq]
      simp [copyTransport]

/-! Concrete fixtures used to instantiate the claim theorems. -/

/-- A small parquet file: two source columns, one extra column absent, one
unparseable numeric token, three rows. -/
def wFile : PFile :=
  ⟨⟨["data", "x.parquet"]⟩, ["VendorID", "store_and_fwd_flag"],
   [[RawValue.int 1, RawValue.str "Y"],
    [RawValue.str "oops", RawValue.null],
    [RawValue.int 3, RawValue.str "N"]]⟩

/-- A second file with the same base name in another subdirectory. -/
def wFile2 : PFile :=
  ⟨⟨["other", "x.parquet"]⟩, ["VendorID"], [[RawValue.int 7]]⟩

def wState : DBState := ⟨[], [], []⟩

def wImp : Importer := ⟨2, Method.copy, false⟩

def wImpDry : Importer := ⟨2, Method.copy, true⟩

def wNoFail : Nat → Bool := fun _ => false

/-- Witness for C1 at a concrete configuration. -/
theorem claim1_witness :
    wImp.dry_run = false
    ∧ ((∀ s0 : DBState, is_file_imported s0 wFile.path.name = true →
        importParquet wImp wNoFail false wFile s0
          = (false, s0, [Event.checkLedger wFile.path.name true]))
      ∧ ((importParquet wImp wNoFail false wFile wState).1 = true →
        importParquet wImp wNoFail false wFile
            (importParquet wImp wNoFail false wFile wState).2.1
          = (false, (importParquet wImp wNoFail false wFile wState).2.1,
             [Event.checkLedger wFile.path.name true]))) :=
  ⟨rfl, claim1_ledger_idempotence wImp wImp wNoFail wNoFail false false
    wFile wState rfl⟩

/-- Witness for C2: the lock key of the file's name is held by another
session, and the attempt skips with zero writes. -/
theorem claim2_witness :
    is_file_imported ⟨[], [], [hashtext "x.parquet"]⟩ wFile.path.name = false
    ∧ (⟨[], [], [hashtext "x.parquet"]⟩ : DBState).locks.contains
        (hashtext wFile.path.name) = true
    ∧ (importParquet wImp wNoFail false wFile ⟨[], [], [hashtext "x.parquet"]⟩
        = (false, ⟨[], [], [hashtext "x.parquet"]⟩,
           [Event.checkLedger wFile.path.name false,
            Event.tryLock (hashtext wFile.path.name) false])
      ∧ writeSizes (importParquet wImp wNoFail false wFile
          ⟨[], [], [hashtext "x.parquet"]⟩).2.2 = []
      ∧ countInserts (importParquet wImp wNoFail false wFile
          ⟨[], [], [hashtext "x.parquet"]⟩).2.2 = 0) :=
  ⟨by decide, by decide,
   claim2_lock_denied_skip wImp wNoFail false wFile
     ⟨[], [], [hashtext "x.parquet"]⟩ (by decide) (by decide)⟩

/-- Witness for C3: on a real acquired run the lock-acquisition event is in
the trace and the final event is the release attempt of the same key. -/
theorem claim3_witness :
    Event.tryLock (hashtext "x.parquet") true
      ∈ (importParquet wImp wNoFail true wFile wState).2.2
    ∧ (importParquet wImp wNoFail true wFile wState).2.2.getLast?
        = some (Event.unlockAttempt (hashtext "x.parquet"))
    ∧ (importParquet wImp wNoFail true wFile wState).1
        = (importParquet wImp wNoFail false wFile wState).1
    ∧ (importParquet wImp wNoFail true wFile wState).2.1.trips
        = (importParquet wImp wNoFail false wFile wState).2.1.trips
    ∧ (importParquet wImp wNoFail true wFile wState).2.1.ledger
        = (importParquet wImp wNoFail false wFile wState).2.1.ledger :=
  ⟨by decide,
   (claim3_lock_release wImp wNoFail true wFile wState).1
     (hashtext "x.parquet") (by decide),
   (claim3_lock_release wImp wNoFail true wFile wState).2.1,
   (claim3_lock_release wImp wNoFail true wFile wState).2.2.1,
   (claim3_lock_release wImp wNoFail true wFile wState).2.2.2⟩

/-- Oracle making the write of batch 1 fail, for every file position. -/
def wFail : Nat → Nat → Bool := fun _ b => b == 1

def wUf : Nat → Bool := fun _ => false

def wFailNone : Nat → Nat → Bool := fun _ _ => false

/-- A raw batch with an unparseable numeric token, a missing canonical
column and an extra column. -/
def wDF : DataFrame :=
  ⟨2, [("passenger_count", [RawValue.str "N/A", RawValue.int 5]),
       ("junk", [RawValue.int 0, RawValue.int 0])]⟩

/-- Witness for C4: with the first batch write failing, the file is
abandoned with nothing committed, no ledger entry, the lock released, and
the run proceeds to the remaining file. -/
theorem claim4_witness :
    wFail 0 (0 + 1) = true
    ∧ ((importParquet wImp (wFail 0) (wUf 0) wFile wState).1 = false
      ∧ (importParquet wImp (wFail 0) (wUf 0) wFile wState).2.1.ledger
          = wState.ledger
      ∧ (importParquet wImp (wFail 0) (wUf 0) wFile wState).2.1.locks
          = wState.locks
      ∧ (importParquet wImp (wFail 0) (wUf 0) wFile wState).2.1.trips
          = wState.trips ++ (((chunks wImp.batch_size wFile.rows).take 0).map
              (fun rows => storedRows wImp.method (normDF wFile.cols rows))).flatten
      ∧ importAll wImp wFail wUf (wFile :: [wFile2]) 0 wState
          = ((importAll wImp wFail wUf [wFile2] (0 + 1)
                (importParquet wImp (wFail 0) (wUf 0) wFile wState).2.1).1,
             (importAll wImp wFail wUf [wFile2] (0 + 1)
                (importParquet wImp (wFail 0) (wUf 0) wFile wState).2.1).2.1,
             (importParquet wImp (wFail 0) (wUf 0) wFile wState).2.2
               ++ (importAll wImp wFail wUf [wFile2] (0 + 1)
                    (importParquet wImp (wFail 0) (wUf 0) wFile wState).2.1).2.2)) :=
  ⟨rfl, claim4_failure_containment wImp wFail wUf wFile [wFile2] 0 wState 0
    rfl (by decide) (by decide) rfl (chunks_length_pos wImp.batch_size _ _)
    (fun i hi => absurd hi (Nat.not_lt_zero i)) rfl⟩

/-- Witness for C5: `VendorID` is canonical but absent from `wDF`, and the
normalized output synthesizes it as an all-null column of the right
height, with the canonical column list and the extra column dropped. -/
theorem claim5_witness :
    ("VendorID" ∈ srcCols ∧ lookupCol "VendorID" wDF.cols = none)
    ∧ ∃ out, normalizeChunk wDF = .ok out
        ∧ out.cols.map Prod.fst = srcCols
        ∧ out.nrows = wDF.nrows
        ∧ lookupCol "VendorID" out.cols
            = some (List.replicate wDF.nrows RawValue.null) := by
  refine ⟨⟨by decide, by decide⟩, ?_⟩
  obtain ⟨out, h1, h2, h3, h4⟩ := claim5_column_completeness wDF
  exact ⟨out, h1, h2, h3, h4 "VendorID" (by decide) (by decide)⟩

/-- Witness for C6: the token `N/A` in the numeric `passenger_count`
column becomes null while the parseable neighbour keeps its value, with
the row count preserved. -/
theorem claim6_witness :
    (parseIntStr "N/A" = none ∧ "passenger_count" ∈ numNames)
    ∧ ∃ out, normalizeChunk wDF = .ok out
        ∧ out.nrows = wDF.nrows
        ∧ lookupCol "passenger_count" out.cols
            = some [RawValue.null, RawValue.int 5] := by
  refine ⟨⟨by decide, by decide⟩, ?_⟩
  obtain ⟨out, h1, h2, h3, h4, h5, h6, h7⟩ := claim6_coercion_safety wDF
  refine ⟨out, h1, h2, ?_⟩
  rw [h4 "passenger_count" (by decide)]
  decide

/-- Witness for C7 at a concrete dry-run configuration. -/
theorem claim7_witness :
    wImpDry.dry_run = true
    ∧ ((importParquet wImpDry wNoFail false wFile wState).2.1.trips
          = wState.trips
      ∧ (importParquet wImpDry wNoFail false wFile wState).2.1.ledger
          = wState.ledger
      ∧ writeSizes (importParquet wImpDry wNoFail false wFile wState).2.2 = []
      ∧ countInserts (importParquet wImpDry wNoFail false wFile wState).2.2 = 0
      ∧ countReads (importParquet wImpDry wNoFail false wFile wState).2.2 ≤ 1) :=
  ⟨rfl, claim7_dry_run_purity wImpDry wNoFail false wFile wState rfl⟩

/-- Witness for C8 at a concrete three-row file with batch size two. -/
theorem claim8_witness :
    wImp.batch_size ≠ 0
    ∧ ((importParquet wImp wNoFail false wFile wState).1 = true
      ∧ (importParquet wImp wNoFail false wFile wState).2.1.ledger
          = wState.ledger ++ [(wFile.path.name, wFile.rows.length)]
      ∧ countInserts (importParquet wImp wNoFail false wFile wState).2.2 = 1
      ∧ (writeSizes (importParquet wImp wNoFail false wFile wState).2.2).sum
          = wFile.rows.length
      ∧ (∀ w ∈ writeSizes (importParquet wImp wNoFail false wFile wState).2.2,
          0 < w ∧ w ≤ wImp.batch_size)
      ∧ (importParquet wImp wNoFail false wFile wState).2.1.trips.length
          = wState.trips.length + wFile.rows.length) :=
  ⟨by decide, claim8_batch_accounting wImp wNoFail false wFile wState
    rfl (by decide) (fun _ => rfl) (by decide) (by decide)⟩

/-- Witness for C9 (amended) on a normalized one-row batch whose text flag
is the non-empty string `Y`. -/
theorem claim9_witness :
    RawValue.str "" ∉ (lookupCol "store_and_fwd_flag"
        (normDF ["store_and_fwd_flag"] [[RawValue.str "Y"]]).cols).getD []
    ∧ copyChunk (normDF ["store_and_fwd_flag"] [[RawValue.str "Y"]])
        = .ok (valuesChunk (normDF ["store_and_fwd_flag"] [[RawValue.str "Y"]])) :=
  ⟨by decide,
   claim9_amended_loading_equivalence
     (toDF ["store_and_fwd_flag"] [[RawValue.str "Y"]]) _
     (normDF_eq _ _) (by decide)⟩

/-- Witness for C10: two files named `x.parquet` in different directories;
the run loads only the first. -/
theorem claim10_witness :
    wFile.path.name = wFile2.path.name
    ∧ ((importAll wImp wFailNone wUf [wFile, wFile2] 0 wState).1 = 1
      ∧ (importAll wImp wFailNone wUf [wFile, wFile2] 0 wState).2.1.ledger
          = wState.ledger ++ [(wFile.path.name,
              ((chunks wImp.batch_size wFile.rows).map List.length).sum)]
      ∧ (importAll wImp wFailNone wUf [wFile, wFile2] 0 wState).2.1.trips
          = wState.trips ++ ((chunks wImp.batch_size wFile.rows).map
              (fun rows => storedRows wImp.method (normDF wFile.cols rows))).flatten
      ∧ importParquet wImp (wFailNone (0 + 1)) (wUf (0 + 1)) wFile2
          (importParquet wImp (wFailNone 0) (wUf 0) wFile wState).2.1
        = (false, (importParquet wImp (wFailNone 0) (wUf 0) wFile wState).2.1,
           [Event.checkLedger wFile2.path.name true])) :=
  ⟨rfl, claim10_basename_identity wImp wFailNone wUf wFile wFile2 0 wState
    rfl rfl (fun _ _ => rfl) (fun _ => rfl) (by decide) (by decide)⟩

end GithubDataPipeline
